import Mathlib

/-!
# unifex::any_object — construction dispatch and handle lifecycle

A shallow embedding of `include/unifex/any_object.hpp`.

The class template `_any_object<InlineSize, InlineAlignment, RequireNoexceptMove,
DefaultAllocator, CPOs...>::type` is embedded in two layers:

* the compile-time layer: `padded_size`, `padded_alignment`,
  `can_be_stored_inplace_v`, `can_be_type_erased_v`, the requires-clause of each of the
  six constructor templates (`requirement`), and the target of each delegating
  constructor (`body`);
* the run-time layer: a `World` of handles (table reference + storage region) and heap
  counters, on which the placement-constructing constructor, the move constructor and
  the destructor act, logging the calls they make.

Headers that the class includes but that are not part of the development
(`detail/vtable.hpp`, `detail/type_erasure_builtins.hpp`,
`detail/any_heap_allocated_storage.hpp`) are modelled from the design document; every
such definition says so in its doc comment.
-/

namespace unifex

/-! ## Compile-time layer -/

/-- The platform: `sizeof(void*)` and `alignof(void*)`. -/
structure Target where
  sizeof_ptr : Nat
  alignof_ptr : Nat
  deriving DecidableEq, Repr

/-- Operation kinds: the two built-in ones of `detail/type_erasure_builtins.hpp` and the
caller-declared ones (`CPOs...`). -/
inductive CPO where
  | _destroy_cpo
  | _move_construct_cpo (RequireNoexceptMove : Bool)
  | user (id : Nat)
  deriving DecidableEq, Repr

/-- An allocator type, with `std::is_default_constructible_v` of it. -/
structure AllocTy where
  id : Nat
  is_default_constructible : Bool
  deriving DecidableEq, Repr

/-- An allocator object: its type and a tag telling instances apart. -/
structure Alloc where
  ty : AllocTy
  state : Nat
  deriving DecidableEq, Repr

/-- Concrete types a handle can be asked to hold. `obj` is a user type described by
`sizeof`, `alignof` and the operation kinds that can be produced for it;
`any_heap_allocated_storage T Alloc` is `detail::any_heap_allocated_storage<T, Alloc, CPOs...>`. -/
inductive Ty where
  | obj (id : Nat) (size : Nat) (align : Nat) (supported : List CPO)
  | any_heap_allocated_storage (T : Ty) (Alloc : AllocTy)
  deriving DecidableEq, Repr

/-- The template arguments of `_any_object`. -/
structure Config where
  InlineSize : Nat
  InlineAlignment : Nat
  RequireNoexceptMove : Bool
  DefaultAllocator : AllocTy
  CPOs : List CPO
  deriving DecidableEq, Repr

/-- Modelled from the spec: `sizeof(T)`; for the heap fallback wrapper, whose declaration
(`detail/any_heap_allocated_storage.hpp`) is missing, the size of a pointer ("this wrapper
always fits because it is pointer-sized"). -/
def sizeof (tg : Target) : Ty → Nat
  | .obj _ size _ _ => size
  | .any_heap_allocated_storage _ _ => tg.sizeof_ptr

/-- Modelled from the spec: `alignof(T)`; for the heap fallback wrapper, whose declaration
(`detail/any_heap_allocated_storage.hpp`) is missing, the alignment of a pointer. -/
def alignof (tg : Target) : Ty → Nat
  | .obj _ _ align _ => align
  | .any_heap_allocated_storage _ _ => tg.alignof_ptr

/-- Source lines 69-70: `InlineAlignment < alignof(void*) ? alignof(void*) : InlineAlignment`. -/
def padded_alignment (tg : Target) (cfg : Config) : Nat :=
  if cfg.InlineAlignment < tg.alignof_ptr then tg.alignof_ptr else cfg.InlineAlignment

/-- Source lines 71-72: `InlineSize < sizeof(void*) ? sizeof(void*) : InlineSize`. -/
def padded_size (tg : Target) (cfg : Config) : Nat :=
  if cfg.InlineSize < tg.sizeof_ptr then tg.sizeof_ptr else cfg.InlineSize

/-- Source lines 74-76:
`sizeof(T) <= padded_size && alignof(T) <= padded_alignment`. -/
def can_be_stored_inplace_v (tg : Target) (cfg : Config) (T : Ty) : Bool :=
  decide (sizeof tg T ≤ padded_size tg cfg) && decide (alignof tg T ≤ padded_alignment tg cfg)

/-- Modelled from the spec: whether the operation kind can be produced for the type (the
capability predicate machinery of `detail/vtable.hpp` is missing). A user type lists its
kinds; the heap fallback wrapper has its own destroy and move-construct and "exposes the
same capability set as `T` by forwarding every operation call". -/
def supports : Ty → CPO → Bool
  | .obj _ _ _ supported, c => decide (c ∈ supported)
  | .any_heap_allocated_storage _ _, ._destroy_cpo => true
  | .any_heap_allocated_storage _ _, ._move_construct_cpo _ => true
  | .any_heap_allocated_storage T _, .user id => supports T (.user id)

/-- Modelled from the spec: `detail::supports_type_erased_cpos_v<T, CPOs...>` (missing,
`detail/vtable.hpp`): "a concrete type qualifies only if every operation kind in the set
can be produced for it". -/
def supports_type_erased_cpos_v (T : Ty) (cpos : List CPO) : Bool :=
  cpos.all (supports T)

/-- Source lines 78-84: `supports_type_erased_cpos_v<T, _destroy_cpo,
_move_construct_cpo<RequireNoexceptMove>, CPOs...>`. -/
def can_be_type_erased_v (cfg : Config) (T : Ty) : Bool :=
  supports_type_erased_cpos_v T
    (CPO._destroy_cpo :: CPO._move_construct_cpo cfg.RequireNoexceptMove :: cfg.CPOs)

/-- What the handle observes of a forwarded argument pack `Args&&...` for a user type:
whether `constructible_from<T, Args...>` holds, and whether `T(args...)` exits by an
exception in the run considered. -/
structure Args where
  constructible : Bool
  throws : Bool
  deriving DecidableEq, Repr

/-- The pack that follows `std::in_place_type<T>`: either arguments for a user type, or
the pack `std::allocator_arg, alloc, std::in_place_type<T>, args...` that line 156-162
hands to the wrapper. -/
inductive Pack where
  | plain (args : Args)
  | tagged (alloc : Alloc) (T : Ty) (rest : Pack)
  deriving DecidableEq, Repr

/-- The decayed type `remove_cvref_t<T>` of the argument of the converting constructor
(line 97), split the way its first two requirements split it. -/
inductive ValueTy where
  | self
  | in_place_type_t (T : Ty)
  | allocator_arg_t
  | other (T : Ty)
  deriving DecidableEq, Repr

/-- Source line 52-54: `_is_in_place_type<T> || std::is_same_v<T, std::allocator_arg_t>`. -/
def _is_any_object_tag_argument : ValueTy → Bool
  | .in_place_type_t _ => true
  | .allocator_arg_t => true
  | _ => false

/-- A constructor call, by the shape of its argument list. A call that starts with
`std::in_place_type<T>`, or with `std::allocator_arg, alloc, std::in_place_type<T>`, has
the shape of the `in_place_type` templates, which are the more specialised ones. -/
inductive Call where
  | value (T : ValueTy) (object : Args)
  | alloc_value (allocator : Alloc) (T : Ty) (value : Args)
  | in_place (T : Ty) (args : Pack)
  | alloc_in_place (alloc : Alloc) (T : Ty) (args : Pack)
  deriving DecidableEq, Repr

/-- The six constructor templates that accept a concrete type, in source order. -/
inductive Ctor where
  | value                  -- line 97
  | alloc_value            -- line 105
  | in_place_inline        -- line 120
  | in_place_heap          -- line 130
  | alloc_in_place_inline  -- line 140
  | alloc_in_place_heap    -- line 151
  deriving DecidableEq, Repr

/-- Every constructor template, in source order. -/
def Ctor.all : List Ctor :=
  [.value, .alloc_value, .in_place_inline, .in_place_heap,
   .alloc_in_place_inline, .alloc_in_place_heap]

/-- The requires-clause of each constructor template, evaluated on a call; `false` when
the call does not have the template's parameter list. In lines 92-96 the third conjunct
is only looked at for a type that passed the first two. -/
def requirement (tg : Target) (cfg : Config) : Ctor → Call → Bool
  -- lines 92-96
  | .value, .value T object =>
      !(decide (T = ValueTy.self)) && !(_is_any_object_tag_argument T) &&
        (match T with
         | .other U => can_be_type_erased_v cfg U
         | _ => false) && object.constructible
  -- lines 102-104
  | .alloc_value, .alloc_value _ T value =>
      can_be_type_erased_v cfg T && value.constructible
  -- lines 118-119
  | .in_place_inline, .in_place T _ =>
      can_be_stored_inplace_v tg cfg T
  -- lines 126-129
  | .in_place_heap, .in_place T _ =>
      can_be_type_erased_v cfg T && !(can_be_stored_inplace_v tg cfg T) &&
        cfg.DefaultAllocator.is_default_constructible
  -- lines 137-139
  | .alloc_in_place_inline, .alloc_in_place _ T _ =>
      can_be_type_erased_v cfg T && can_be_stored_inplace_v tg cfg T
  -- lines 148-150
  | .alloc_in_place_heap, .alloc_in_place _ T _ =>
      can_be_type_erased_v cfg T && !(can_be_stored_inplace_v tg cfg T)
  | _, _ => false

/-- The constructor templates whose requirement the call satisfies. -/
def candidates (tg : Target) (cfg : Config) (call : Call) : List Ctor :=
  Ctor.all.filter (fun k => requirement tg cfg k call)

/-- The object `DefaultAllocator()`. -/
def Config.default_allocator (cfg : Config) : Alloc :=
  ⟨cfg.DefaultAllocator, 0⟩

/-- What a selected constructor does first. -/
inductive Step where
  /-- the mem-initializer list delegates to another constructor of the handle -/
  | delegate (next : Call)
  /-- line 122-123: `vtable_(create<T>())`, then `::new (&storage_) T(args...)` -/
  | place (T : Ty) (args : Pack)
  deriving DecidableEq, Repr

/-- The mem-initializer list of each constructor template (lines 100, 112-116, 122-123,
131-135, 146, 156-162). -/
def body (cfg : Config) : Ctor → Call → Option Step
  | .value, .value (.other U) object => some (.delegate (.in_place U (.plain object)))
  | .alloc_value, .alloc_value allocator T value =>
      some (.delegate (.alloc_in_place allocator T (.plain value)))
  | .in_place_inline, .in_place T args => some (.place T args)
  | .in_place_heap, .in_place T args =>
      some (.delegate (.alloc_in_place cfg.default_allocator T args))
  | .alloc_in_place_inline, .alloc_in_place _ T args => some (.delegate (.in_place T args))
  | .alloc_in_place_heap, .alloc_in_place alloc T args =>
      some (.delegate
        (.in_place (.any_heap_allocated_storage T alloc.ty) (.tagged alloc T args)))
  | _, _ => none

/-- Result of resolving a constructor call at compile time. -/
inductive Resolved where
  /-- no constructor's requirement is satisfied by the call itself -/
  | no_viable_overload
  /-- more than one constructor's requirement is satisfied -/
  | ambiguous
  /-- a constructor was selected, but a delegation inside it cannot be resolved -/
  | ill_formed
  /-- the chain reached lines 122-123 after this many delegations -/
  | place (T : Ty) (args : Pack) (delegations : Nat)
  /-- the chain was longer than the fuel given -/
  | out_of_fuel
  deriving DecidableEq, Repr

/-- Follow the chain of delegating constructors from a call. -/
def resolve (tg : Target) (cfg : Config) : Nat → Call → Resolved
  | 0, _ => .out_of_fuel
  | fuel + 1, call =>
      match candidates tg cfg call with
      | [] => .no_viable_overload
      | [k] =>
          match body cfg k call with
          | none => .ill_formed
          | some (.place T args) => .place T args 0
          | some (.delegate next) =>
              match resolve tg cfg fuel next with
              | .place T args n => .place T args (n + 1)
              | .out_of_fuel => .out_of_fuel
              | _ => .ill_formed
      | _ => .ambiguous

/-! ## Run-time layer -/

/-- Address of a handle's storage region; it also identifies the handle. -/
abbrev Addr := Nat

/-- What lives in a storage region. -/
inductive Obj where
  /-- an object of a user type `T` (possibly moved-from, still to be destroyed) -/
  | direct (T : Ty)
  /-- a heap fallback wrapper that owns nothing: it has been moved from -/
  | released (T : Ty) (A : AllocTy)
  /-- a heap fallback wrapper owning (allocator, block) with the object living in the block -/
  | owning (T : Ty) (A : AllocTy) (alloc : Alloc) (block : Nat) (payload : Obj)
  deriving DecidableEq, Repr

/-- The concrete type of the object in the storage region. -/
def Obj.ty : Obj → Ty
  | .direct T => T
  | .released T A => .any_heap_allocated_storage T A
  | .owning T A _ _ _ => .any_heap_allocated_storage T A

/-- Whether the object owns a heap block. -/
def Obj.owns : Obj → Bool
  | .owning _ _ _ _ _ => true
  | _ => false

/-- Calls the handle makes and heap traffic, in program order. -/
inductive Event where
  /-- the member `vtable_` of the handle at `self` is initialised to the table for `table` -/
  | vtable_init (self : Addr) (table : Ty)
  /-- line 123: `::new (&storage_) T(args...)` -/
  | placement_new (self : Addr) (T : Ty)
  /-- lines 169-172: the move-construct entry of `table` is called with `(dst, src)` -/
  | move_construct (table : Ty) (dst : Addr) (src : Addr)
  /-- line 177: the destroy entry of `table` is called with `p` -/
  | destroy (table : Ty) (p : Addr)
  | allocate (alloc : Alloc) (block : Nat)
  | deallocate (alloc : Alloc) (block : Nat)
  deriving DecidableEq, Repr

/-- Program state: for every address the table reference and the storage content of the
handle there (`none`: no handle, resp. raw bytes), the heap counters, and the log. -/
structure World where
  vtable_ : Addr → Option Ty
  storage_ : Addr → Option Obj
  allocations : Nat
  deallocations : Nat
  /-- whether the allocator reports failure when asked -/
  out_of_memory : Bool
  log : List Event

/-- No handle anywhere, nothing allocated. -/
def World.init (out_of_memory : Bool) : World :=
  ⟨fun _ => none, fun _ => none, 0, 0, out_of_memory, []⟩

/-- Pointwise update of a map on addresses. -/
def set {α : Type} (f : Addr → α) (a : Addr) (v : α) : Addr → α :=
  fun x => if x = a then v else f x

/-- Append an event to the log. -/
def World.emit (w : World) (e : Event) : World :=
  { w with log := w.log ++ [e] }

/-- Modelled from the spec: whether `T(args...)` is well-formed. A user type says so
itself (`Args.constructible`); the wrapper, whose header is missing, is "constructed with
`(allocator, in-place-type<T>, args...)`" for its own `T` and allocator type, from
arguments `T` is constructible from. -/
def constructible_from : Ty → Pack → Bool
  | .obj _ _ _ _, .plain args => args.constructible
  | .any_heap_allocated_storage T A, .tagged alloc U rest =>
      decide (U = T) && decide (alloc.ty = A) && constructible_from T rest
  | _, _ => false

/-- Whether the user type's constructor at the bottom of the pack exits by an exception. -/
def Pack.throws : Pack → Bool
  | .plain args => args.throws
  | .tagged _ _ rest => rest.throws

/-- Modelled from the spec: running `T(args...)`. A user type is constructed unless its
constructor throws. The heap fallback wrapper (`detail/any_heap_allocated_storage.hpp`,
missing) "allocates storage for one `T` via the allocator, constructs `T` there, and
records the allocator and pointer"; when the allocator reports failure nothing is
allocated, and when `T`'s constructor fails the block is given back ("no leaked
intermediate allocation"). `Except.error` carries the state in which the exception
leaves. A pack that `constructible_from` excludes is never run. -/
def construct_object : World → Ty → Pack → Except World (World × Obj)
  | w, .any_heap_allocated_storage T A, .tagged alloc _ rest =>
      if w.out_of_memory then .error w
      else
        let block := w.allocations
        let w1 := { w with allocations := w.allocations + 1 }.emit (.allocate alloc block)
        match construct_object w1 T rest with
        | .error w2 =>
            .error ({ w2 with deallocations := w2.deallocations + 1 }.emit
              (.deallocate alloc block))
        | .ok (w2, payload) => .ok (w2, .owning T A alloc block payload)
  | w, T, args => if args.throws then .error w else .ok (w, .direct T)

/-- Modelled from the spec: the effect of the destroy operation descriptor
(`detail/type_erasure_builtins.hpp`, missing) on an object. A user object is destroyed;
the wrapper's destroy "additionally releases the heap allocation through the allocator
after destroying `T`", and a moved-from wrapper has nothing to release. -/
def destroy_object (w : World) : Obj → World
  | .direct _ => w
  | .released _ _ => w
  | .owning _ _ alloc block payload =>
      let w1 := destroy_object w payload
      { w1 with deallocations := w1.deallocations + 1 }.emit (.deallocate alloc block)

/-- Modelled from the spec: the effect of the move-construct operation descriptor
(`detail/type_erasure_builtins.hpp`, missing) on the source object: the object built at
the destination and what is left at the source. The wrapper "transfers the (allocator,
pointer) pair to the new location rather than copying bytes". -/
def move_object : Obj → Obj × Obj
  | .direct T => (.direct T, .direct T)
  | .released T A => (.released T A, .released T A)
  | .owning T A alloc block payload => (.owning T A alloc block payload, .released T A)

/-- Modelled from the spec: whether moving the object may exit by an exception: only a
user type for which the never-failing move-construct kind cannot be produced. -/
def move_may_throw : Obj → Bool
  | .direct T => !(supports T (CPO._move_construct_cpo true))
  | _ => false

/-- Modelled from the spec: `vtable_holder_t::create<T>()` (`detail/vtable.hpp`, missing):
the table "unique per concrete type, containing one descriptor per required operation
kind"; it exists only for a qualifying type. The table created for `T` is identified by
`T`. -/
def create (cfg : Config) (T : Ty) : Option Ty :=
  if can_be_type_erased_v cfg T then some T else none

/-- Modelled from the spec: calling the destroy entry of the table created for `X` on the
storage at `p`. Undefined (`none`) unless an object of type `X` lives there. -/
def destroy_entry (X : Ty) (w : World) (p : Addr) : Option World :=
  match w.storage_ p with
  | some o =>
      if o.ty = X then
        let w1 := destroy_object w o
        some { w1 with storage_ := set w1.storage_ p none }
      else none
  | none => none

/-- Modelled from the spec: calling the move-construct entry of the table created for `X`
with `(dst, src)`. Undefined (`none`) unless an object of type `X` lives at `src` and
`dst` is raw storage. `Except.error`: the object's move constructor threw, nothing was
built at `dst`. -/
def move_construct_entry (X : Ty) (w : World) (dst src : Addr) (throws : Bool) :
    Option (Except World World) :=
  match w.storage_ src, w.storage_ dst with
  | some o, none =>
      if o.ty = X then
        if throws && move_may_throw o then some (.error w)
        else
          some (.ok { w with storage_ := set (set w.storage_ src (some (move_object o).2))
                                dst (some (move_object o).1) })
      else none
  | _, _ => none

/-- Lines 118-124 at run time, for a table that exists: `vtable_(create<T>())`, then
`::new (&storage_) T(args...)`. When the placement-new expression throws, no
constructor of the handle has completed and the handle does not come into existence. -/
def in_place_ctor (w : World) (self : Addr) (table : Ty) (T : Ty) (args : Pack) :
    Except World World :=
  let w1 := { w with vtable_ := set w.vtable_ self (some table) }.emit
    (.vtable_init self table)
  let w2 := w1.emit (.placement_new self T)
  match construct_object w2 T args with
  | .error w3 => .error { w3 with vtable_ := set w3.vtable_ self none }
  | .ok (w3, o) => .ok { w3 with storage_ := set w3.storage_ self (some o) }

/-- Outcome of a construction attempt. -/
inductive Run where
  /-- rejected by overload resolution: no constructor's requirement is satisfied -/
  | no_viable_overload
  /-- a requirement was satisfied but the selected constructor does not instantiate -/
  | ill_formed
  /-- an exception left the constructor: no handle was created -/
  | threw (w : World)
  /-- the constructor returned: a handle lives at the address -/
  | done (w : World)

/-- Number of calls `resolve` may follow; no chain is that long (`resolve_fuel`). -/
def resolve_fuel : Nat := 4

/-- A construction attempt at address `self`: resolve the call (lines 92-162), instantiate
lines 122-123 for the selected type, run them. -/
def construct (tg : Target) (cfg : Config) (w : World) (self : Addr) (call : Call) : Run :=
  match resolve tg cfg resolve_fuel call with
  | .place T args _ =>
      match create cfg T with
      | some table =>
          if constructible_from T args then
            match in_place_ctor w self table T args with
            | .ok w1 => .done w1
            | .error w1 => .threw w1
          else .ill_formed
      | none => .ill_formed
  | .no_viable_overload => .no_viable_overload
  | _ => .ill_formed

/-- Lines 166-173: `vtable_(other.vtable_)`, then the move-construct entry of that table
is called with `(&storage_, &other.storage_)`. `none`: the call is not allowed by the
language (`other` is not a handle, or `self` is not free storage). When the entry throws,
the handle at `self` does not come into existence. -/
def move_ctor (w : World) (self other : Addr) (throws : Bool) : Option World :=
  match w.vtable_ other, w.vtable_ self with
  | some X, none =>
      let w1 := { w with vtable_ := set w.vtable_ self (some X) }.emit (.vtable_init self X)
      let w2 := w1.emit (.move_construct X self other)
      match move_construct_entry X w2 self other throws with
      | some (.ok w3) => some w3
      | some (.error w3) => some { w3 with vtable_ := set w3.vtable_ self none }
      | none => none
  | _, _ => none

/-- Lines 175-178: the destroy entry of `vtable_` is called with `&storage_`; afterwards
the handle is gone. `none`: there is no handle at `self`. -/
def destructor (w : World) (self : Addr) : Option World :=
  match w.vtable_ self with
  | some X =>
      match destroy_entry X (w.emit (.destroy X self)) self with
      | some w1 => some { w1 with vtable_ := set w1.vtable_ self none }
      | none => none
  | none => none

/-- What a program does with handles after the first one is constructed. -/
inductive Op where
  /-- move-construct a new handle at `dst` from the handle at `src` -/
  | move (dst : Addr) (src : Addr) (throws : Bool)
  /-- the handle at `a` goes out of scope -/
  | destroy (a : Addr)
  deriving DecidableEq, Repr

/-- One operation. -/
def exec (w : World) : Op → Option World
  | .move dst src throws => move_ctor w dst src throws
  | .destroy a => destructor w a

/-- A sequence of operations; `none` when one of them is not allowed. -/
def run : List Op → World → Option World
  | [], w => some w
  | op :: ops, w =>
      match exec w op with
      | some w1 => run ops w1
      | none => none

/-! ## Definitions used to state and prove the properties -/

/-- Closed form of the delegation chain that starts at a call. -/
def dispatch (tg : Target) (cfg : Config) : Call → Resolved
  | .in_place T p =>
      if can_be_stored_inplace_v tg cfg T then .place T p 0
      else if can_be_type_erased_v cfg T && cfg.DefaultAllocator.is_default_constructible then
        .place (.any_heap_allocated_storage T cfg.DefaultAllocator)
          (.tagged cfg.default_allocator T p) 2
      else .no_viable_overload
  | .alloc_in_place a T p =>
      if can_be_type_erased_v cfg T then
        if can_be_stored_inplace_v tg cfg T then .place T p 1
        else .place (.any_heap_allocated_storage T a.ty) (.tagged a T p) 1
      else .no_viable_overload
  | .alloc_value a T v =>
      if can_be_type_erased_v cfg T && v.constructible then
        if can_be_stored_inplace_v tg cfg T then .place T (.plain v) 2
        else .place (.any_heap_allocated_storage T a.ty) (.tagged a T (.plain v)) 2
      else .no_viable_overload
  | .value (.other U) v =>
      if can_be_type_erased_v cfg U && v.constructible then
        if can_be_stored_inplace_v tg cfg U then .place U (.plain v) 1
        else if cfg.DefaultAllocator.is_default_constructible then
          .place (.any_heap_allocated_storage U cfg.DefaultAllocator)
            (.tagged cfg.default_allocator U (.plain v)) 3
        else .ill_formed
      else .no_viable_overload
  | .value _ _ => .no_viable_overload

/-- Whether the event is heap traffic. -/
def Event.is_heap : Event → Bool
  | .allocate _ _ => true
  | .deallocate _ _ => true
  | _ => false

/-- Number of heap blocks the object owns, its payload's included. -/
def Obj.blocks : Obj → Nat
  | .owning _ _ _ _ payload => payload.blocks + 1
  | _ => 0

/-- The concrete type a constructor call asks the handle to hold. -/
def Call.held : Call → Option Ty
  | .value (.other U) _ => some U
  | .value _ _ => none
  | .alloc_value _ T _ => some T
  | .in_place T _ => some T
  | .alloc_in_place _ T _ => some T

/-- The allocator a constructor call selects: the one supplied with `std::allocator_arg`,
`DefaultAllocator()` otherwise. -/
def Call.allocator (cfg : Config) : Call → Alloc
  | .alloc_value a _ _ => a
  | .alloc_in_place a _ _ => a
  | _ => cfg.default_allocator

/-- Whether a constructor call has an allocator to fall back on: one supplied with
`std::allocator_arg`, or a default-constructible `DefaultAllocator`. -/
def Call.has_allocator (cfg : Config) : Call → Bool
  | .alloc_value _ _ _ => true
  | .alloc_in_place _ _ _ => true
  | _ => cfg.DefaultAllocator.is_default_constructible

/-- The arguments a constructor call forwards to the held type. -/
def Call.pack : Call → Pack
  | .value _ v => .plain v
  | .alloc_value _ _ v => .plain v
  | .in_place _ p => p
  | .alloc_in_place _ _ p => p

/-- Every address either has no handle, or a handle whose table reference is the table
created for the type of the object in its storage. -/
def consistent (w : World) : Prop :=
  ∀ a, (w.vtable_ a = none ∧ w.storage_ a = none) ∨
    ∃ o, w.storage_ a = some o ∧ w.vtable_ a = some o.ty

/-- Number of calls of a destroy entry with the address `self` in a log. -/
def destroy_calls (self : Addr) (log : List Event) : Nat :=
  log.countP (fun e => match e with
    | .destroy _ p => decide (p = self)
    | _ => false)

/-- The life of the handle at `self`: a construction attempt; when it completes, the
operations `ops` of the program (moves from the handle among them), then the handle's
destructor. After a failed attempt there is no handle and nothing else happens. -/
def lifecycle (tg : Target) (cfg : Config) (w : World) (self : Addr) (call : Call)
    (ops : List Op) : Option World :=
  match construct tg cfg w self call with
  | .done w1 =>
      match run ops w1 with
      | some w2 => destructor w2 self
      | none => none
  | .threw w1 => some w1
  | _ => some w

/-- Invariant of a program whose one heap block was obtained by the wrapper `O`: every
stored object is `O` or its moved-from form `R`, one block was allocated, and either it
is still owned by exactly one handle and not released, or it was released once and no
handle owns it. -/
def one_owner (O R : Obj) (w : World) : Prop :=
  consistent w ∧ w.allocations = 1 ∧
  (∀ a o, w.storage_ a = some o → o = O ∨ o = R) ∧
  ((w.deallocations = 0 ∧ ∃ a, w.storage_ a = some O ∧ ∀ b, w.storage_ b = some O → b = a) ∨
   (w.deallocations = 1 ∧ ∀ a, w.storage_ a ≠ some O))

/-- LP64: pointers of eight bytes, aligned to eight. -/
def lp64 : Target := ⟨8, 8⟩

/-- The allocator type `std::allocator<std::byte>`. -/
def std_allocator : AllocTy := ⟨0, true⟩

/-- An allocator type without a default constructor. -/
def arena_allocator : AllocTy := ⟨1, false⟩

/-- The instantiation `any_object<16, 1, true, std::allocator<std::byte>>`. -/
def cfg16 : Config := ⟨16, 1, true, std_allocator, []⟩

/-- The instantiation `any_object<4, 1, true, std::allocator<std::byte>>`: less than a
pointer of inline capacity. -/
def cfg4 : Config := ⟨4, 1, true, std_allocator, []⟩

/-- The kinds of a type that is destructible and nothrow-move-constructible. -/
def movable : List CPO :=
  [CPO._destroy_cpo, CPO._move_construct_cpo true, CPO._move_construct_cpo false]

/-- A type like `char[16]`: as large as the inline capacity of `cfg16`. -/
def bytes16 : Ty := .obj 16 16 1 movable

/-- A type like `char[17]`: one byte larger. -/
def bytes17 : Ty := .obj 17 17 1 movable

/-- A type like `char[5]`: one byte larger than the inline capacity of `cfg4`. -/
def bytes5 : Ty := .obj 5 5 1 movable

/-- A one-byte type with a deleted move constructor: destructible only. -/
def pinned : Ty := .obj 1 1 1 [CPO._destroy_cpo]

/-- Arguments the type is constructible from, with a constructor that returns. -/
def good_args : Args := ⟨true, false⟩

/-- The state in which a construction attempt ends; `w` when nothing ran. -/
def Run.world (w : World) : Run → World
  | .done w1 => w1
  | .threw w1 => w1
  | _ => w

/-- The state after `bytes16` is constructed in place at address 0 of an empty program. -/
def inline_world : World :=
  Run.world (World.init false)
    (construct lp64 cfg16 (World.init false) 0 (.in_place bytes16 (.plain good_args)))

/-- The state after `bytes17` is constructed at address 0 of an empty program with a
supplied allocator. -/
def arena_world : World :=
  Run.world (World.init false)
    (construct lp64 cfg16 (World.init false) 0
      (.alloc_value ⟨arena_allocator, 7⟩ bytes17 good_args))

/-- The state after `bytes17` is constructed by value at address 0 of an empty program. -/
def heap_world : World :=
  Run.world (World.init false)
    (construct lp64 cfg16 (World.init false) 0 (.value (.other bytes17) good_args))

/-- The state after the handle at address 0 of `heap_world` is moved to address 1. -/
def moved_world : World :=
  (move_ctor heap_world 1 0 false).getD heap_world

/-- The state after the moved-from handle at address 0 of `moved_world` is destroyed. -/
def moved_destroyed_world : World :=
  (destructor moved_world 0).getD moved_world

/-- The state after two moves and the destruction of all three handles. -/
def all_destroyed_world : World :=
  (run [.move 1 0 false, .move 2 1 false, .destroy 0, .destroy 2, .destroy 1]
    heap_world).getD heap_world

/-- The end of the life of a handle that was moved from once. -/
def lifecycle_world : World :=
  (lifecycle lp64 cfg16 (World.init false) 0 (.value (.other bytes17) good_args)
    [.move 1 0 false]).getD (World.init false)

/-- The end of a construction attempt whose allocation fails. -/
def failed_world : World :=
  (lifecycle lp64 cfg16 (World.init true) 0 (.value (.other bytes17) good_args)
    []).getD (World.init false)

/-! ## Compile-time layer: lemmas -/

theorem padded_size_eq_max (tg : Target) (cfg : Config) :
    padded_size tg cfg = max cfg.InlineSize tg.sizeof_ptr := by
  unfold padded_size
  split <;> omega

theorem padded_alignment_eq_max (tg : Target) (cfg : Config) :
    padded_alignment tg cfg = max cfg.InlineAlignment tg.alignof_ptr := by
  unfold padded_alignment
  split <;> omega

theorem can_be_stored_inplace_v_iff (tg : Target) (cfg : Config) (T : Ty) :
    can_be_stored_inplace_v tg cfg T = true ↔
      sizeof tg T ≤ max cfg.InlineSize tg.sizeof_ptr ∧
        alignof tg T ≤ max cfg.InlineAlignment tg.alignof_ptr := by
  simp [can_be_stored_inplace_v, padded_size_eq_max, padded_alignment_eq_max]

/-- The heap fallback wrapper fits every storage region. -/
theorem wrapper_stored_inplace (tg : Target) (cfg : Config) (T : Ty) (A : AllocTy) :
    can_be_stored_inplace_v tg cfg (.any_heap_allocated_storage T A) = true := by
  rw [can_be_stored_inplace_v_iff]
  simp [sizeof, alignof]

theorem candidates_in_place (tg : Target) (cfg : Config) (T : Ty) (p : Pack) :
    candidates tg cfg (.in_place T p) =
      if can_be_stored_inplace_v tg cfg T then [Ctor.in_place_inline]
      else if can_be_type_erased_v cfg T && cfg.DefaultAllocator.is_default_constructible
        then [Ctor.in_place_heap] else [] := by
  cases h1 : can_be_stored_inplace_v tg cfg T <;> cases h2 : can_be_type_erased_v cfg T <;>
    cases h3 : cfg.DefaultAllocator.is_default_constructible <;>
    simp [candidates, Ctor.all, requirement, List.filter, h1, h2, h3]

theorem candidates_alloc_in_place (tg : Target) (cfg : Config) (a : Alloc) (T : Ty)
    (p : Pack) :
    candidates tg cfg (.alloc_in_place a T p) =
      if can_be_type_erased_v cfg T then
        (if can_be_stored_inplace_v tg cfg T then [Ctor.alloc_in_place_inline]
         else [Ctor.alloc_in_place_heap])
      else [] := by
  cases h1 : can_be_stored_inplace_v tg cfg T <;> cases h2 : can_be_type_erased_v cfg T <;>
    simp [candidates, Ctor.all, requirement, List.filter, h1, h2]

theorem candidates_alloc_value (tg : Target) (cfg : Config) (a : Alloc) (T : Ty)
    (v : Args) :
    candidates tg cfg (.alloc_value a T v) =
      if can_be_type_erased_v cfg T && v.constructible then [Ctor.alloc_value] else [] := by
  cases h2 : can_be_type_erased_v cfg T <;> cases h3 : v.constructible <;>
    simp [candidates, Ctor.all, requirement, List.filter, h2, h3]

theorem candidates_value (tg : Target) (cfg : Config) (T : ValueTy) (v : Args) :
    candidates tg cfg (.value T v) =
      match T with
      | .other U => if can_be_type_erased_v cfg U && v.constructible then [Ctor.value] else []
      | _ => [] := by
  cases T with
  | other U =>
    cases h2 : can_be_type_erased_v cfg U <;> cases h3 : v.constructible <;>
      simp [candidates, Ctor.all, requirement, List.filter, h2, h3,
        _is_any_object_tag_argument]
  | _ => simp [candidates, Ctor.all, requirement, List.filter]

theorem resolve_in_place_fits (tg : Target) (cfg : Config) (n : Nat) (T : Ty) (p : Pack)
    (h : can_be_stored_inplace_v tg cfg T = true) :
    resolve tg cfg (n + 1) (.in_place T p) = .place T p 0 := by
  simp [resolve, candidates_in_place, h, body]

theorem resolve_alloc_in_place (tg : Target) (cfg : Config) (n : Nat) (a : Alloc) (T : Ty)
    (p : Pack) :
    resolve tg cfg (n + 2) (.alloc_in_place a T p) = dispatch tg cfg (.alloc_in_place a T p) := by
  cases h1 : can_be_stored_inplace_v tg cfg T <;> cases h2 : can_be_type_erased_v cfg T <;>
    simp [resolve, candidates_alloc_in_place, candidates_in_place, h1, h2, body, dispatch,
      wrapper_stored_inplace]

theorem resolve_in_place (tg : Target) (cfg : Config) (n : Nat) (T : Ty) (p : Pack) :
    resolve tg cfg (n + 3) (.in_place T p) = dispatch tg cfg (.in_place T p) := by
  cases h1 : can_be_stored_inplace_v tg cfg T
  · cases h2 : can_be_type_erased_v cfg T <;>
      cases h3 : cfg.DefaultAllocator.is_default_constructible <;>
      simp [resolve, candidates_alloc_in_place, candidates_in_place, h1, h2, h3, body, dispatch,
        wrapper_stored_inplace, Config.default_allocator]
  · simp [resolve_in_place_fits, h1, dispatch]

theorem resolve_alloc_value (tg : Target) (cfg : Config) (n : Nat) (a : Alloc) (T : Ty)
    (v : Args) :
    resolve tg cfg (n + 3) (.alloc_value a T v) = dispatch tg cfg (.alloc_value a T v) := by
  cases h2 : can_be_type_erased_v cfg T <;> cases h3 : v.constructible <;>
    cases h1 : can_be_stored_inplace_v tg cfg T <;>
    simp [resolve, candidates_alloc_value, candidates_alloc_in_place, candidates_in_place,
      h1, h2, h3, body, dispatch, wrapper_stored_inplace]

theorem resolve_value (tg : Target) (cfg : Config) (n : Nat) (T : ValueTy) (v : Args) :
    resolve tg cfg (n + 4) (.value T v) = dispatch tg cfg (.value T v) := by
  cases T with
  | other U =>
    cases h2 : can_be_type_erased_v cfg U <;> cases h3 : v.constructible <;>
      cases h1 : can_be_stored_inplace_v tg cfg U <;>
      cases h4 : cfg.DefaultAllocator.is_default_constructible <;>
      simp [resolve, candidates_value, candidates_alloc_in_place, candidates_in_place,
        h1, h2, h3, h4, body, dispatch, wrapper_stored_inplace, Config.default_allocator]
  | _ => simp [resolve, candidates_value, dispatch]

/-- Four calls of fuel are enough for every chain. -/
theorem resolve_eq_dispatch (tg : Target) (cfg : Config) (n : Nat) (call : Call) :
    resolve tg cfg (n + 4) call = dispatch tg cfg call := by
  cases call with
  | value T v => exact resolve_value tg cfg n T v
  | alloc_value a T v => exact resolve_alloc_value tg cfg (n + 1) a T v
  | in_place T p => exact resolve_in_place tg cfg (n + 1) T p
  | alloc_in_place a T p => exact resolve_alloc_in_place tg cfg (n + 2) a T p

/-! ## Run-time layer: lemmas -/

@[simp] theorem set_same {α : Type} (f : Addr → α) (a : Addr) (v : α) : set f a v a = v := by
  simp [set]

theorem set_other {α : Type} (f : Addr → α) (a b : Addr) (v : α) (h : b ≠ a) :
    set f a v b = f b := by
  simp [set, h]

/-- The wrapper type for `T` is never `T` itself. -/
theorem wrapper_ne (T : Ty) (A : AllocTy) : Ty.any_heap_allocated_storage T A ≠ T := by
  induction T generalizing A with
  | obj id size align supported => intro h; cases h
  | any_heap_allocated_storage U B ih =>
    intro h
    injection h with h1 h2
    exact ih B h1

/-- A type that does not fit the storage region is a user type. -/
theorem not_fits_obj (tg : Target) (cfg : Config) (T : Ty)
    (h : can_be_stored_inplace_v tg cfg T = false) :
    ∃ id size align supported, T = .obj id size align supported := by
  cases T with
  | obj id size align supported => exact ⟨id, size, align, supported, rfl⟩
  | any_heap_allocated_storage U B => simp [wrapper_stored_inplace] at h

/-- Constructing an object touches neither table references nor storage regions, and
whatever it builds has the type asked for. -/
theorem construct_object_frame (T : Ty) :
    ∀ (w : World) (p : Pack),
      (∀ w1, construct_object w T p = .error w1 →
        w1.vtable_ = w.vtable_ ∧ w1.storage_ = w.storage_ ∧
          w1.allocations + w.deallocations = w1.deallocations + w.allocations ∧
          w.deallocations ≤ w1.deallocations) ∧
      (∀ w1 o, construct_object w T p = .ok (w1, o) →
        w1.vtable_ = w.vtable_ ∧ w1.storage_ = w.storage_ ∧ o.ty = T ∧
          w1.deallocations = w.deallocations ∧ w.allocations ≤ w1.allocations) := by
  induction T with
  | obj id size align supported =>
    intro w p
    unfold construct_object
    constructor
    · intro w1 h
      split at h <;> simp at h
      subst h; simp; omega
    · intro w1 o h
      split at h <;> simp at h
      obtain ⟨rfl, rfl⟩ := h
      simp [Obj.ty]
  | any_heap_allocated_storage U B ih =>
    intro w p
    cases p with
    | plain args =>
      unfold construct_object
      constructor
      · intro w1 h
        split at h <;> simp at h
        subst h; simp; omega
      · intro w1 o h
        split at h <;> simp at h
        obtain ⟨rfl, rfl⟩ := h
        simp [Obj.ty]
    | tagged alloc V rest =>
      unfold construct_object
      constructor
      · intro w1 h
        split at h
        · simp at h; subst h; simp; omega
        · dsimp only at h
          split at h
          · rename_i w2 heq
            have := (ih _ rest).1 w2 heq
            simp [World.emit] at this
            simp at h; subst h
            simp [World.emit, this]
            omega
          · simp at h
      · intro w1 o h
        split at h
        · simp at h
        · dsimp only at h
          split at h
          · simp at h
          · rename_i w2 payload heq
            have := (ih _ rest).2 w2 payload heq
            simp [World.emit] at this
            simp at h
            obtain ⟨rfl, rfl⟩ := h
            simp [Obj.ty, this]
            omega

theorem construct_object_obj (w : World) (id size align : Nat) (supported : List CPO)
    (p : Pack) :
    construct_object w (.obj id size align supported) p =
      if p.throws then .error w else .ok (w, .direct (.obj id size align supported)) := by
  unfold construct_object
  rfl

/-- The log after constructing an object: only heap traffic is added. -/
theorem construct_object_log (T : Ty) :
    ∀ (w : World) (p : Pack) (r : Except World (World × Obj)), construct_object w T p = r →
      ∃ evs, (match r with | .error w1 => w1.log | .ok (w1, _) => w1.log) = w.log ++ evs ∧
        ∀ e ∈ evs, e.is_heap = true := by
  induction T with
  | obj id size align supported =>
    intro w p r h
    rw [construct_object_obj] at h
    subst h
    refine ⟨[], ?_, by simp⟩
    split <;> rename_i heq <;> split at heq <;> simp at heq <;> simp [← heq]
  | any_heap_allocated_storage U B ih =>
    intro w p r h
    cases p with
    | plain args =>
      unfold construct_object at h
      subst h
      refine ⟨[], ?_, by simp⟩
      split <;> rename_i heq <;> split at heq <;> simp at heq <;> simp [← heq]
    | tagged alloc V rest =>
      unfold construct_object at h
      split at h
      · subst h; exact ⟨[], by simp, by simp⟩
      · dsimp only at h
        obtain ⟨evs, h1, h2⟩ := ih _ rest _ rfl
        split at h
        · rename_i w2 heq
          rw [heq] at h1
          subst h
          refine ⟨Event.allocate alloc w.allocations :: evs ++
            [Event.deallocate alloc w.allocations], ?_, ?_⟩
          · simp [World.emit] at h1 ⊢
            simp [h1]
          · intro e he
            simp at he
            rcases he with rfl | he | rfl
            · rfl
            · exact h2 e he
            · rfl
        · rename_i w2 payload heq
          rw [heq] at h1
          subst h
          refine ⟨Event.allocate alloc w.allocations :: evs, ?_, ?_⟩
          · simp [World.emit] at h1 ⊢
            simp [h1]
          · intro e he
            simp at he
            rcases he with rfl | he
            · rfl
            · exact h2 e he

/-- Destroying an object touches neither table references nor storage regions, allocates
nothing, and adds only heap traffic to the log. -/
theorem destroy_object_frame (o : Obj) :
    ∀ w : World,
      (destroy_object w o).vtable_ = w.vtable_ ∧ (destroy_object w o).storage_ = w.storage_ ∧
        (destroy_object w o).allocations = w.allocations ∧
        (destroy_object w o).out_of_memory = w.out_of_memory ∧
        (destroy_object w o).deallocations = w.deallocations + o.blocks ∧
        ∃ evs, (destroy_object w o).log = w.log ++ evs ∧ ∀ e ∈ evs, e.is_heap = true := by
  induction o with
  | direct T => intro w; simp [destroy_object, Obj.blocks]
  | released T A => intro w; simp [destroy_object, Obj.blocks]
  | owning T A alloc block payload ih =>
    intro w
    obtain ⟨h1, h2, h3, h4, h5, evs, h6, h7⟩ := ih w
    simp only [destroy_object, World.emit]
    refine ⟨h1, h2, h3, h4, by simp [Obj.blocks]; omega, evs ++ [Event.deallocate alloc block], by simp [h6], ?_⟩
    intro e he
    simp at he
    rcases he with he | rfl
    · exact h7 e he
    · rfl

theorem move_object_ty (o : Obj) : (move_object o).1.ty = o.ty ∧ (move_object o).2.ty = o.ty := by
  cases o <;> simp [move_object, Obj.ty]

/-- What a successful call of the move constructor (lines 166-173) has done. -/
theorem move_ctor_some (w w1 : World) (d s : Addr) (t : Bool)
    (h : move_ctor w d s t = some w1) :
    ∃ X o, w.vtable_ s = some X ∧ w.vtable_ d = none ∧ w.storage_ s = some o ∧
      w.storage_ d = none ∧ o.ty = X ∧
      w1.log = w.log ++ [Event.vtable_init d X, Event.move_construct X d s] ∧
      w1.allocations = w.allocations ∧ w1.deallocations = w.deallocations ∧
      w1.out_of_memory = w.out_of_memory ∧
      (((t && move_may_throw o) = false ∧ w1.vtable_ = set w.vtable_ d (some X) ∧
          w1.storage_ = set (set w.storage_ s (some (move_object o).2)) d
            (some (move_object o).1)) ∨
        ((t && move_may_throw o) = true ∧ w1.vtable_ = set (set w.vtable_ d (some X)) d none ∧
          w1.storage_ = w.storage_)) := by
  unfold move_ctor at h
  split at h
  · rename_i X hs hd
    dsimp only at h
    unfold move_construct_entry at h
    simp only [World.emit] at h
    cases hso : w.storage_ s with
    | none => simp [hso] at h
    | some o =>
      cases hsd : w.storage_ d with
      | some o2 => simp [hso, hsd] at h
      | none =>
        simp only [hso, hsd] at h
        by_cases hty : o.ty = X
        · simp only [hty, if_true] at h
          cases hthr : (t && move_may_throw o)
          · simp [hthr] at h
            subst h
            exact ⟨X, o, hs, hd, rfl, rfl, hty, by simp, rfl, rfl, rfl, Or.inl ⟨hthr, rfl, rfl⟩⟩
          · simp [hthr] at h
            subst h
            exact ⟨X, o, hs, hd, rfl, rfl, hty, by simp, rfl, rfl, rfl, Or.inr ⟨hthr, rfl, rfl⟩⟩
        · simp [hty] at h
  · simp at h

/-- What a successful call of the destructor (lines 175-178) has done. -/
theorem destructor_some (w w1 : World) (a : Addr) (h : destructor w a = some w1) :
    ∃ X o, w.vtable_ a = some X ∧ w.storage_ a = some o ∧ o.ty = X ∧
      w1.vtable_ = set w.vtable_ a none ∧ w1.storage_ = set w.storage_ a none ∧
      w1.log = (destroy_object (w.emit (.destroy X a)) o).log ∧
      w1.allocations = w.allocations ∧
      w1.deallocations = w.deallocations + o.blocks ∧
      w1.out_of_memory = w.out_of_memory := by
  unfold destructor at h
  split at h
  · rename_i X hv
    unfold destroy_entry at h
    simp only [World.emit] at h
    cases hso : w.storage_ a with
    | none => simp [hso] at h
    | some o =>
      simp only [hso] at h
      by_cases hty : o.ty = X
      · simp only [hty, if_true] at h
        simp at h
        subst h
        obtain ⟨h1, h2, h3, h4, h5, -⟩ := destroy_object_frame o
          { vtable_ := w.vtable_, storage_ := w.storage_, allocations := w.allocations,
            deallocations := w.deallocations, out_of_memory := w.out_of_memory,
            log := w.log ++ [Event.destroy X a] }
        exact ⟨X, o, hv, rfl, hty, by simp [h1], by simp [h2], by simp [World.emit],
          by simp [h3], by simp [h5], by simp [h4]⟩
      · simp [hty] at h
  · simp at h

theorem construct_eq (tg : Target) (cfg : Config) (w : World) (self : Addr) (call : Call) :
    construct tg cfg w self call =
      match dispatch tg cfg call with
      | .place T args _ =>
          match create cfg T with
          | some table =>
              if constructible_from T args then
                match in_place_ctor w self table T args with
                | .ok w1 => .done w1
                | .error w1 => .threw w1
              else .ill_formed
          | none => .ill_formed
      | .no_viable_overload => .no_viable_overload
      | _ => .ill_formed := by
  unfold construct
  rw [show resolve_fuel = 0 + 4 from rfl, resolve_eq_dispatch]

/-- Where a chain of delegations ends when it reaches lines 122-123: at the held type
with the call's own arguments when it fits, at the wrapper otherwise. -/
theorem dispatch_place (tg : Target) (cfg : Config) (call : Call) (X : Ty) (q : Pack)
    (n : Nat) (h : dispatch tg cfg call = .place X q n) :
    ∃ T, call.held = some T ∧
      ((can_be_stored_inplace_v tg cfg T = true ∧ X = T ∧ q = call.pack) ∨
       (can_be_stored_inplace_v tg cfg T = false ∧ can_be_type_erased_v cfg T = true ∧
          X = .any_heap_allocated_storage T (call.allocator cfg).ty ∧
          q = .tagged (call.allocator cfg) T call.pack)) := by
  cases call with
  | value V v =>
    cases V with
    | other U =>
      refine ⟨U, rfl, ?_⟩
      simp only [dispatch] at h
      cases h1 : can_be_stored_inplace_v tg cfg U <;>
        cases h2 : can_be_type_erased_v cfg U <;> cases h3 : v.constructible <;>
        cases h4 : cfg.DefaultAllocator.is_default_constructible <;>
        simp [h1, h2, h3, h4] at h <;>
        simp [Call.allocator, Call.pack, Config.default_allocator, ← h.1, ← h.2.1]
    | _ => simp [dispatch] at h
  | alloc_value a T v =>
    refine ⟨T, rfl, ?_⟩
    simp only [dispatch] at h
    cases h1 : can_be_stored_inplace_v tg cfg T <;>
      cases h2 : can_be_type_erased_v cfg T <;> cases h3 : v.constructible <;>
      simp [h1, h2, h3] at h <;>
      simp [Call.allocator, Call.pack, ← h.1, ← h.2.1]
  | in_place T p =>
    refine ⟨T, rfl, ?_⟩
    simp only [dispatch] at h
    cases h1 : can_be_stored_inplace_v tg cfg T <;>
      cases h2 : can_be_type_erased_v cfg T <;>
      cases h4 : cfg.DefaultAllocator.is_default_constructible <;>
      simp [h1, h2, h4] at h <;>
      simp [Call.allocator, Call.pack, Config.default_allocator, ← h.1, ← h.2.1]
  | alloc_in_place a T p =>
    refine ⟨T, rfl, ?_⟩
    simp only [dispatch] at h
    cases h1 : can_be_stored_inplace_v tg cfg T <;>
      cases h2 : can_be_type_erased_v cfg T <;>
      simp [h1, h2] at h <;>
      simp [Call.allocator, Call.pack, ← h.1, ← h.2.1]

/-- What lines 122-123 have done when they return. -/
theorem in_place_ctor_ok (w w1 : World) (self : Addr) (table T : Ty) (p : Pack)
    (h : in_place_ctor w self table T p = .ok w1) :
    ∃ o evs, o.ty = T ∧ w1.vtable_ = set w.vtable_ self (some table) ∧
      w1.storage_ = set w.storage_ self (some o) ∧
      w1.log = w.log ++ [Event.vtable_init self table, Event.placement_new self T] ++ evs ∧
      (∀ e ∈ evs, e.is_heap = true) ∧
      w1.deallocations = w.deallocations ∧ w.allocations ≤ w1.allocations := by
  unfold in_place_ctor at h
  dsimp only at h
  split at h
  · simp at h
  · rename_i w3 o heq
    simp at h
    subst h
    obtain ⟨h1, h2, h3, h4, h5⟩ := (construct_object_frame T _ p).2 w3 o heq
    obtain ⟨evs, h6, h7⟩ := construct_object_log T _ p _ heq
    simp only [World.emit] at h1 h2 h4 h5 h6
    exact ⟨o, evs, h3, by simp [h1], by simp [h2], by simp [h6], h7, h4, h5⟩

/-- What lines 122-123 have done when the placement-new expression throws. -/
theorem in_place_ctor_error (w w1 : World) (self : Addr) (table T : Ty) (p : Pack)
    (h : in_place_ctor w self table T p = .error w1) :
    ∃ evs, w1.vtable_ = set (set w.vtable_ self (some table)) self none ∧
      w1.storage_ = w.storage_ ∧
      w1.log = w.log ++ [Event.vtable_init self table, Event.placement_new self T] ++ evs ∧
      (∀ e ∈ evs, e.is_heap = true) ∧
      w1.allocations + w.deallocations = w1.deallocations + w.allocations := by
  unfold in_place_ctor at h
  dsimp only at h
  split at h
  · rename_i w3 heq
    simp at h
    subst h
    obtain ⟨h1, h2, h3, h4⟩ := (construct_object_frame T _ p).1 w3 heq
    obtain ⟨evs, h6, h7⟩ := construct_object_log T _ p _ heq
    simp only [World.emit] at h1 h2 h3 h4 h6
    exact ⟨evs, by simp [h1], by simp [h2], by simp [h6], h7, h3⟩
  · simp at h

/-- A completed construction ran lines 122-123 for a type that has a table and is
constructible from the pack, reached by resolving the call. -/
theorem construct_done (tg : Target) (cfg : Config) (w w1 : World) (self : Addr)
    (call : Call) (h : construct tg cfg w self call = .done w1) :
    ∃ X q n, dispatch tg cfg call = .place X q n ∧ can_be_type_erased_v cfg X = true ∧
      constructible_from X q = true ∧ in_place_ctor w self X X q = .ok w1 := by
  rw [construct_eq] at h
  split at h
  · rename_i X q n hd
    unfold create at h
    cases he : can_be_type_erased_v cfg X
    · simp [he] at h
    · cases hc : constructible_from X q
      · simp [he, hc] at h
      · simp only [he, hc, if_true] at h
        split at h
        · rename_i w2 hok
          injection h with h
          subst h
          exact ⟨X, q, n, hd, he, hc, hok⟩
        · simp at h
  · simp at h
  · simp at h

/-- A construction that threw ran lines 122-123 as well. -/
theorem construct_threw (tg : Target) (cfg : Config) (w w1 : World) (self : Addr)
    (call : Call) (h : construct tg cfg w self call = .threw w1) :
    ∃ X q n, dispatch tg cfg call = .place X q n ∧ can_be_type_erased_v cfg X = true ∧
      constructible_from X q = true ∧ in_place_ctor w self X X q = .error w1 := by
  rw [construct_eq] at h
  split at h
  · rename_i X q n hd
    unfold create at h
    cases he : can_be_type_erased_v cfg X
    · simp [he] at h
    · cases hc : constructible_from X q
      · simp [he, hc] at h
      · simp only [he, hc, if_true] at h
        split at h
        · simp at h
        · rename_i w2 hok
          injection h with h
          subst h
          exact ⟨X, q, n, hd, he, hc, hok⟩
  · simp at h
  · simp at h

theorem consistent_init (oom : Bool) : consistent (World.init oom) := by
  intro a
  exact Or.inl ⟨rfl, rfl⟩

theorem consistent_exec (w w1 : World) (op : Op) (hw : consistent w)
    (h : exec w op = some w1) : consistent w1 := by
  cases op with
  | move d s t =>
    obtain ⟨X, o, hvs, hvd, hss, hsd, hty, -, -, -, -, hcase⟩ := move_ctor_some w w1 d s t h
    have hds : d ≠ s := by
      intro e; subst e; rw [hvs] at hvd; cases hvd
    intro a
    rcases hcase with ⟨-, hv, hst⟩ | ⟨-, hv, hst⟩
    · rw [hv, hst]
      by_cases had : a = d
      · subst had
        right
        exact ⟨(move_object o).1, by simp, by simp [(move_object_ty o).1, hty]⟩
      · by_cases has : a = s
        · subst has
          right
          refine ⟨(move_object o).2, by simp [set, had], ?_⟩
          simp [set, had, hvs, (move_object_ty o).2, hty]
        · simpa [set, had, has] using hw a
    · rw [hv, hst]
      by_cases had : a = d
      · subst had
        left
        exact ⟨by simp, hsd⟩
      · simpa [set, had] using hw a
  | destroy b =>
    obtain ⟨X, o, -, -, -, hv, hst, -⟩ := destructor_some w w1 b h
    intro a
    rw [hv, hst]
    by_cases hab : a = b
    · subst hab; left; simp
    · simpa [set, hab] using hw a

theorem consistent_run (ops : List Op) : ∀ (w w1 : World), consistent w →
    run ops w = some w1 → consistent w1 := by
  induction ops with
  | nil => intro w w1 hw h; simp [run] at h; subst h; exact hw
  | cons op ops ih =>
    intro w w1 hw h
    simp only [run] at h
    split at h
    · rename_i w2 he
      exact ih w2 w1 (consistent_exec w w2 op hw he) h
    · simp at h

/-- An operation other than the handle's own destruction leaves its table reference as it is. -/
theorem exec_vtable_keep (w w1 : World) (op : Op) (s : Addr) (X : Ty)
    (h : exec w op = some w1) (hop : op ≠ .destroy s) (hs : w.vtable_ s = some X) :
    w1.vtable_ s = some X := by
  cases op with
  | move d s2 t =>
    obtain ⟨Y, o, -, hvd, -, -, -, -, -, -, -, hcase⟩ := move_ctor_some w w1 d s2 t h
    have hds : s ≠ d := by
      intro e; subst e; rw [hs] at hvd; cases hvd
    rcases hcase with ⟨-, hv, -⟩ | ⟨-, hv, -⟩ <;> simp [hv, set, hds, hs]
  | destroy b =>
    obtain ⟨Y, o, -, -, -, hv, -⟩ := destructor_some w w1 b h
    have hsb : s ≠ b := by
      intro e; subst e; exact hop rfl
    simp [hv, set, hsb, hs]

theorem run_vtable_keep (ops : List Op) (s : Addr) (X : Ty) : ∀ (w w1 : World),
    run ops w = some w1 → Op.destroy s ∉ ops → w.vtable_ s = some X →
    w1.vtable_ s = some X := by
  induction ops with
  | nil => intro w w1 h _ hs; simp [run] at h; subst h; exact hs
  | cons op ops ih =>
    intro w w1 h hn hs
    simp only [run] at h
    simp only [List.mem_cons, not_or] at hn
    split at h
    · rename_i w2 he
      exact ih w2 w1 h hn.2 (exec_vtable_keep w w2 op s X he (fun e => hn.1 e.symm) hs)
    · simp at h

theorem destroy_calls_append (self : Addr) (l1 l2 : List Event) :
    destroy_calls self (l1 ++ l2) = destroy_calls self l1 + destroy_calls self l2 := by
  simp [destroy_calls, List.countP_append]

theorem destroy_calls_heap (self : Addr) (evs : List Event) (h : ∀ e ∈ evs, e.is_heap = true) :
    destroy_calls self evs = 0 := by
  unfold destroy_calls
  rw [List.countP_eq_zero]
  intro e he
  have := h e he
  cases e <;> simp [Event.is_heap] at this ⊢

theorem count_destroy_heap (ev : Event) (evs : List Event) (hev : ev.is_heap = false)
    (h : ∀ e ∈ evs, e.is_heap = true) : evs.count ev = 0 := by
  rw [List.count_eq_zero]
  intro he
  have := h ev he
  rw [hev] at this
  cases this

theorem count_le_destroy_calls (self : Addr) (X : Ty) (l : List Event) :
    l.count (Event.destroy X self) ≤ destroy_calls self l := by
  unfold destroy_calls List.count
  apply List.countP_mono_left
  intro e _ he
  simp at he
  subst he
  simp

/-- An operation other than the destruction of the handle at `self` only appends to the
log, and calls no destroy entry with the address `self`. -/
theorem exec_log (w w1 : World) (op : Op) (self : Addr)
    (h : exec w op = some w1) (hop : op ≠ .destroy self) :
    ∃ evs, w1.log = w.log ++ evs ∧ destroy_calls self evs = 0 := by
  cases op with
  | move d s t =>
    obtain ⟨Y, o, -, -, -, -, -, hlog, -⟩ := move_ctor_some w w1 d s t h
    exact ⟨_, hlog, by simp [destroy_calls]⟩
  | destroy b =>
    obtain ⟨Y, o, -, -, -, -, -, hlog, -⟩ := destructor_some w w1 b h
    obtain ⟨-, -, -, -, -, evs, h6, h7⟩ := destroy_object_frame o (w.emit (.destroy Y b))
    have hsb : ¬ b = self := by
      intro e; subst e; exact hop rfl
    refine ⟨Event.destroy Y b :: evs, by rw [hlog, h6]; simp [World.emit], ?_⟩
    have h0 := destroy_calls_heap self evs h7
    unfold destroy_calls at h0 ⊢
    rw [List.countP_cons, h0]
    simp [hsb]

theorem run_log (ops : List Op) (self : Addr) : ∀ (w w1 : World),
    run ops w = some w1 → Op.destroy self ∉ ops →
    ∃ evs, w1.log = w.log ++ evs ∧ destroy_calls self evs = 0 := by
  induction ops with
  | nil => intro w w1 h _; simp [run] at h; subst h; exact ⟨[], by simp, rfl⟩
  | cons op ops ih =>
    intro w w1 h hn
    simp only [run] at h
    simp only [List.mem_cons, not_or] at hn
    split at h
    · rename_i w2 he
      obtain ⟨e1, h1, h2⟩ := exec_log w w2 op self he (fun e => hn.1 e.symm)
      obtain ⟨e2, h3, h4⟩ := ih w2 w1 h hn.2
      exact ⟨e1 ++ e2, by rw [h3, h1]; simp, by rw [destroy_calls_append, h2, h4]⟩
    · simp at h

/-- A completed construction of a type that does not fit: the wrapper for the held type
and the selected allocator was placed, owning the one block allocated for it. -/
theorem construct_heap_done (tg : Target) (cfg : Config) (w w1 : World) (self : Addr)
    (call : Call) (T : Ty)
    (hheld : call.held = some T)
    (hnf : can_be_stored_inplace_v tg cfg T = false)
    (hc : construct tg cfg w self call = .done w1) :
    can_be_type_erased_v cfg T = true ∧ w.out_of_memory = false ∧
    w1.vtable_ = set w.vtable_ self
      (some (.any_heap_allocated_storage T (call.allocator cfg).ty)) ∧
    w1.storage_ = set w.storage_ self
      (some (.owning T (call.allocator cfg).ty (call.allocator cfg) w.allocations
        (.direct T))) ∧
    w1.allocations = w.allocations + 1 ∧ w1.deallocations = w.deallocations ∧
    w1.out_of_memory = w.out_of_memory ∧
    w1.log = w.log ++
      [Event.vtable_init self (.any_heap_allocated_storage T (call.allocator cfg).ty),
       Event.placement_new self (.any_heap_allocated_storage T (call.allocator cfg).ty),
       Event.allocate (call.allocator cfg) w.allocations] := by
  obtain ⟨X, q, n, hdisp, -, -, hctor⟩ := construct_done tg cfg w w1 self call hc
  obtain ⟨T2, hheld2, hcase⟩ := dispatch_place tg cfg call X q n hdisp
  rw [hheld] at hheld2
  injection hheld2 with hT
  subst hT
  rcases hcase with ⟨hf, -, -⟩ | ⟨-, hq, hX, hq2⟩
  · rw [hnf] at hf; cases hf
  · subst hX hq2
    obtain ⟨id, size, align, supported, hobj⟩ := not_fits_obj tg cfg T hnf
    refine ⟨hq, ?_⟩
    unfold in_place_ctor at hctor
    dsimp only at hctor
    unfold construct_object at hctor
    cases hoom : w.out_of_memory
    · simp only [World.emit, hoom] at hctor
      rw [hobj, construct_object_obj] at hctor
      cases hthr : call.pack.throws
      · simp [hthr] at hctor
        subst hctor
        simp [hobj]
      · simp [hthr] at hctor
    · simp [World.emit, hoom] at hctor

theorem one_owner_exec (O R : Obj) (hR : R = (move_object O).2)
    (hO : (move_object O).1 = O) (hRR : move_object R = (R, R)) (hOR : O ≠ R)
    (hOb : O.blocks = 1) (hRb : R.blocks = 0)
    (w w1 : World) (op : Op) (hw : one_owner O R w) (h : exec w op = some w1) :
    one_owner O R w1 := by
  obtain ⟨hcons, hall, hobjs, hbal⟩ := hw
  refine ⟨consistent_exec w w1 op hcons h, ?_⟩
  cases op with
  | move d s t =>
    obtain ⟨X, o, hvs, hvd, hss, hsd, hty, -, ha, hde, -, hcase⟩ := move_ctor_some w w1 d s t h
    have hds : d ≠ s := by
      intro e; subst e; rw [hvs] at hvd; cases hvd
    rcases hcase with ⟨-, -, hst⟩ | ⟨-, -, hst⟩
    · have hoo := hobjs s o hss
      refine ⟨by rw [ha, hall], ?_, ?_⟩
      · intro a o2 ho2
        rw [hst] at ho2
        by_cases had : a = d
        · subst had
          simp at ho2
          rcases hoo with rfl | rfl
          · left; rw [← ho2, hO]
          · right; rw [← ho2, hRR]
        · by_cases has : a = s
          · subst has
            simp [set, had] at ho2
            rcases hoo with rfl | rfl
            · right; rw [← ho2, hR]
            · right; rw [← ho2, hRR]
          · simp [set, had, has] at ho2
            exact hobjs a o2 ho2
      · rw [hde]
        rcases hbal with ⟨hd0, a0, ha0, huniq⟩ | ⟨hd1, hno⟩
        · left
          refine ⟨hd0, ?_⟩
          rcases hoo with rfl | rfl
          · -- the owner is moved from: ownership passes to `d`
            have hsa : s = a0 := huniq s hss
            subst hsa
            refine ⟨d, by rw [hst]; simp [hO], ?_⟩
            intro b hb
            rw [hst] at hb
            by_contra hbd
            by_cases hbs : b = s
            · subst hbs
              simp [set, hbd] at hb
              exact hOR (by rw [hR]; exact hb.symm)
            · simp [set, hbd, hbs] at hb
              exact hbs (huniq b hb)
          · -- a moved-from handle is moved from: the owner stays
            have ha0s : a0 ≠ s := by
              intro e; subst e; rw [hss] at ha0; injection ha0 with e; exact hOR e.symm
            have ha0d : a0 ≠ d := by
              intro e; subst e; rw [hsd] at ha0; cases ha0
            refine ⟨a0, by rw [hst]; simp [set, ha0s, ha0d, ha0], ?_⟩
            intro b hb
            rw [hst] at hb
            by_cases hbd : b = d
            · subst hbd
              simp [hRR] at hb
              exact absurd hb.symm hOR
            · by_cases hbs : b = s
              · subst hbs
                simp [set, hbd, hRR] at hb
                exact absurd hb.symm hOR
              · simp [set, hbd, hbs] at hb
                exact huniq b hb
        · right
          refine ⟨hd1, ?_⟩
          have hoR : o = R := by
            rcases hoo with rfl | rfl
            · exact absurd hss (hno s)
            · rfl
          subst hoR
          intro a ha
          rw [hst] at ha
          by_cases had : a = d
          · subst had
            simp [hRR] at ha
            exact hOR ha.symm
          · by_cases has : a = s
            · subst has
              simp [set, had, hRR] at ha
              exact hOR ha.symm
            · simp [set, had, has] at ha
              exact hno a ha
    · rw [hst, ha, hde]
      exact ⟨hall, hobjs, hbal⟩
  | destroy b =>
    obtain ⟨X, o, -, hsb, -, -, hst, -, ha, hde, -⟩ := destructor_some w w1 b h
    have hoo := hobjs b o hsb
    refine ⟨by rw [ha, hall], ?_, ?_⟩
    · intro a o2 ho2
      rw [hst] at ho2
      by_cases hab : a = b
      · subst hab; simp at ho2
      · simp [set, hab] at ho2
        exact hobjs a o2 ho2
    · rcases hoo with rfl | rfl
      · -- the owner is destroyed: the block is released
        rcases hbal with ⟨hd0, a0, ha0, huniq⟩ | ⟨hd1, hno⟩
        · right
          refine ⟨by rw [hde, hd0, hOb], ?_⟩
          intro a ha
          rw [hst] at ha
          by_cases hab : a = b
          · subst hab; simp at ha
          · simp [set, hab] at ha
            exact hab ((huniq a ha).trans (huniq b hsb).symm)
        · exact absurd hsb (hno b)
      · rcases hbal with ⟨hd0, a0, ha0, huniq⟩ | ⟨hd1, hno⟩
        · left
          have ha0b : a0 ≠ b := by
            intro e; subst e; rw [hsb] at ha0; injection ha0 with e; exact hOR e.symm
          refine ⟨by rw [hde, hd0, hRb], a0, by rw [hst]; simp [set, ha0b, ha0], ?_⟩
          intro c hc
          rw [hst] at hc
          by_cases hcb : c = b
          · subst hcb; simp at hc
          · simp [set, hcb] at hc
            exact huniq c hc
        · right
          refine ⟨by rw [hde, hd1, hRb], ?_⟩
          intro a ha
          rw [hst] at ha
          by_cases hab : a = b
          · subst hab; simp at ha
          · simp [set, hab] at ha
            exact hno a ha

theorem one_owner_run (O R : Obj) (hR : R = (move_object O).2)
    (hO : (move_object O).1 = O) (hRR : move_object R = (R, R)) (hOR : O ≠ R)
    (hOb : O.blocks = 1) (hRb : R.blocks = 0) (ops : List Op) :
    ∀ (w w1 : World), one_owner O R w → run ops w = some w1 → one_owner O R w1 := by
  induction ops with
  | nil => intro w w1 hw h; simp [run] at h; subst h; exact hw
  | cons op ops ih =>
    intro w w1 hw h
    simp only [run] at h
    split at h
    · rename_i w2 he
      exact ih w2 w1 (one_owner_exec O R hR hO hRR hOR hOb hRb w w2 op hw he) h
    · simp at h

/-- The wrapper for a qualifying type qualifies. -/
theorem wrapper_type_erased (cfg : Config) (T : Ty) (A : AllocTy)
    (h : can_be_type_erased_v cfg T = true) :
    can_be_type_erased_v cfg (.any_heap_allocated_storage T A) = true := by
  simp only [can_be_type_erased_v, supports_type_erased_cpos_v, List.all_cons, supports,
    Bool.true_and, Bool.and_eq_true, List.all_eq_true] at h ⊢
  intro c hc
  cases c with
  | _destroy_cpo => rfl
  | _move_construct_cpo b => rfl
  | user id => simpa [supports] using h.2.2 _ hc

/-- A type is built from a pack it is constructible from when the user type's
constructor does not throw and, where a block is needed, the allocator does not fail. -/
theorem construct_object_ok (T : Ty) :
    ∀ (w : World) (p : Pack), constructible_from T p = true → p.throws = false →
      (w.out_of_memory = false ∨ ∃ id size align supported, T = .obj id size align supported) →
      ∃ w1 o, construct_object w T p = .ok (w1, o) := by
  induction T with
  | obj id size align supported =>
    intro w p _ ht _
    rw [construct_object_obj]
    simp [ht]
  | any_heap_allocated_storage U B ih =>
    intro w p hc ht hm
    have hoom : w.out_of_memory = false := by
      rcases hm with h | ⟨id, size, align, supported, h⟩
      · exact h
      · cases h
    cases p with
    | plain args => simp [constructible_from] at hc
    | tagged alloc V rest =>
      simp only [constructible_from, Bool.and_eq_true] at hc
      simp only [Pack.throws] at ht
      obtain ⟨w2, payload, h2⟩ := ih
        ({ w with allocations := w.allocations + 1 }.emit (.allocate alloc w.allocations))
        rest hc.2 ht (Or.inl hoom)
      unfold construct_object
      simp only [hoom] at h2 ⊢
      refine ⟨w2, .owning U B alloc w.allocations payload, ?_⟩
      simp [h2]

/-- A construction whose chain reaches lines 122-123 for a type with a table completes
when nothing throws, leaving an object of that type with that table at `self`. -/
theorem construct_completes (tg : Target) (cfg : Config) (w : World) (self : Addr)
    (call : Call) (X : Ty) (q : Pack) (n : Nat)
    (hd : dispatch tg cfg call = .place X q n)
    (he : can_be_type_erased_v cfg X = true) (hc : constructible_from X q = true)
    (ht : q.throws = false)
    (hm : w.out_of_memory = false ∨
      ∃ id size align supported, X = .obj id size align supported) :
    ∃ w1 o evs, construct tg cfg w self call = .done w1 ∧ w1.vtable_ self = some X ∧
      w1.storage_ self = some o ∧ o.ty = X ∧
      w1.log = w.log ++ [Event.vtable_init self X, Event.placement_new self X] ++ evs ∧
      ∀ e ∈ evs, e.is_heap = true := by
  obtain ⟨w3, o3, hobj⟩ := construct_object_ok X
    (({ w with vtable_ := set w.vtable_ self (some X) }.emit (.vtable_init self X)).emit
      (.placement_new self X)) q hc ht hm
  have hctor : in_place_ctor w self X X q =
      .ok { w3 with storage_ := set w3.storage_ self (some o3) } := by
    unfold in_place_ctor
    simp only [hobj]
  obtain ⟨o, evs, hty, hv, hst, hlog, hheap, -⟩ := in_place_ctor_ok w _ self X X q hctor
  refine ⟨_, o, evs, ?_, by rw [hv]; simp, by rw [hst]; simp, hty, hlog, hheap⟩
  rw [construct_eq, hd]
  simp only [create, he, hc, if_true, hctor]

/-! ## The properties -/

/-- C1: `can_be_stored_inplace_v<T>` is `sizeof(T) <= max(InlineSize, sizeof(void*))` and
`alignof(T) <= max(InlineAlignment, alignof(void*))`, the padded size and alignment being
these maxima; resolving `in_place_type<T>` ends at lines 122-123 for `T` itself without a
delegation exactly when the predicate holds, and a completed `in_place_type<T>`
construction leaves an object of type `T` with the table created for `T` in the handle
exactly when it holds; and when it holds for a qualifying `T` that is constructible from
the arguments, the construction does complete unless something throws, having
initialised the table reference to `T`'s table and then placed the object. -/
theorem C1_in_place_iff_fits (tg : Target) (cfg : Config) (T : Ty) (p : Pack) (w : World)
    (self : Addr) :
    padded_size tg cfg = max cfg.InlineSize tg.sizeof_ptr ∧
    padded_alignment tg cfg = max cfg.InlineAlignment tg.alignof_ptr ∧
    (can_be_stored_inplace_v tg cfg T = true ↔
      sizeof tg T ≤ max cfg.InlineSize tg.sizeof_ptr ∧
        alignof tg T ≤ max cfg.InlineAlignment tg.alignof_ptr) ∧
    (resolve tg cfg resolve_fuel (.in_place T p) = .place T p 0 ↔
      can_be_stored_inplace_v tg cfg T = true) ∧
    (∀ w1, construct tg cfg w self (.in_place T p) = .done w1 →
      ((w1.vtable_ self = some T ∧ ∃ o, w1.storage_ self = some o ∧ o.ty = T) ↔
        can_be_stored_inplace_v tg cfg T = true)) ∧
    (can_be_stored_inplace_v tg cfg T = true → can_be_type_erased_v cfg T = true →
      constructible_from T p = true → p.throws = false →
      (w.out_of_memory = false ∨
        ∃ id size align supported, T = .obj id size align supported) →
      ∃ w1 o evs, construct tg cfg w self (.in_place T p) = .done w1 ∧
        w1.vtable_ self = some T ∧ w1.storage_ self = some o ∧ o.ty = T ∧
        w1.log = w.log ++ [Event.vtable_init self T, Event.placement_new self T] ++ evs ∧
        ∀ e ∈ evs, e.is_heap = true) := by
  refine ⟨padded_size_eq_max tg cfg, padded_alignment_eq_max tg cfg,
    can_be_stored_inplace_v_iff tg cfg T, ?_, ?_, ?_⟩
  · rw [show resolve_fuel = 0 + 4 from rfl, resolve_eq_dispatch]
    cases h1 : can_be_stored_inplace_v tg cfg T <;>
      cases h2 : can_be_type_erased_v cfg T <;>
      cases h4 : cfg.DefaultAllocator.is_default_constructible <;>
      simp [dispatch, h1, h2, h4]
  · intro w1 hc
    obtain ⟨X, q, n, hdisp, -, -, hctor⟩ := construct_done tg cfg w w1 self _ hc
    obtain ⟨o, evs, hty, hv, hst, -⟩ := in_place_ctor_ok w w1 self X X q hctor
    obtain ⟨T2, hheld, hcase⟩ := dispatch_place tg cfg _ X q n hdisp
    simp only [Call.held] at hheld
    injection hheld with hT
    subst hT
    rcases hcase with ⟨hf, hX, -⟩ | ⟨hf, -, hX, -⟩
    · subst hX
      simp [hf, hv, hst, hty]
    · subst hX
      simp [hf, hv, wrapper_ne]
  · intro hf he hc ht hm
    exact construct_completes tg cfg w self (.in_place T p) T p 0
      (by simp [dispatch, hf]) he hc ht hm

/-- C2: for a qualifying type `T` that does not fit, every construction path ends at
lines 122-123 for the wrapper `any_heap_allocated_storage<T, Alloc, CPOs...>`, with the
supplied allocator on the `allocator_arg` paths and `DefaultAllocator()` otherwise, the
latter only when `DefaultAllocator` is default-constructible; a completed construction
leaves an object of the wrapper type in the storage, with the wrapper's table, and a
construction that has an allocator to use does complete unless the allocation fails or
`T`'s constructor throws; and the wrapper satisfies `can_be_stored_inplace_v` in every
configuration, so that the inline overload is the only candidate for it. -/
theorem C2_heap_wrapper_stored (tg : Target) (cfg : Config) (T : Ty)
    (hq : can_be_type_erased_v cfg T = true)
    (hnf : can_be_stored_inplace_v tg cfg T = false) :
    (∀ A, can_be_stored_inplace_v tg cfg (.any_heap_allocated_storage T A) = true) ∧
    (∀ A q, candidates tg cfg (.in_place (.any_heap_allocated_storage T A) q) =
      [Ctor.in_place_inline]) ∧
    (∀ a p, resolve tg cfg resolve_fuel (.alloc_in_place a T p) =
      .place (.any_heap_allocated_storage T a.ty) (.tagged a T p) 1) ∧
    (∀ a v, v.constructible = true →
      resolve tg cfg resolve_fuel (.alloc_value a T v) =
        .place (.any_heap_allocated_storage T a.ty) (.tagged a T (.plain v)) 2) ∧
    (∀ p, resolve tg cfg resolve_fuel (.in_place T p) =
      if cfg.DefaultAllocator.is_default_constructible then
        .place (.any_heap_allocated_storage T cfg.DefaultAllocator)
          (.tagged cfg.default_allocator T p) 2
      else .no_viable_overload) ∧
    (∀ v, v.constructible = true →
      resolve tg cfg resolve_fuel (.value (.other T) v) =
        if cfg.DefaultAllocator.is_default_constructible then
          .place (.any_heap_allocated_storage T cfg.DefaultAllocator)
            (.tagged cfg.default_allocator T (.plain v)) 3
        else .ill_formed) ∧
    (∀ (call : Call) (w w1 : World) (self : Addr), call.held = some T →
      construct tg cfg w self call = .done w1 →
        w1.vtable_ self = some (.any_heap_allocated_storage T (call.allocator cfg).ty) ∧
        ∃ o, w1.storage_ self = some o ∧
          o.ty = .any_heap_allocated_storage T (call.allocator cfg).ty) ∧
    (∀ (call : Call) (w : World) (self : Addr), call.held = some T →
      call.has_allocator cfg = true → constructible_from T call.pack = true →
      call.pack.throws = false → w.out_of_memory = false →
      ∃ w1 o evs, construct tg cfg w self call = .done w1 ∧
        w1.vtable_ self = some (.any_heap_allocated_storage T (call.allocator cfg).ty) ∧
        w1.storage_ self = some o ∧
        o.ty = .any_heap_allocated_storage T (call.allocator cfg).ty ∧
        w1.log = w.log ++
          [Event.vtable_init self (.any_heap_allocated_storage T (call.allocator cfg).ty),
           Event.placement_new self (.any_heap_allocated_storage T (call.allocator cfg).ty)]
          ++ evs ∧
        ∀ e ∈ evs, e.is_heap = true) := by
  have hfuel : resolve_fuel = 0 + 4 := rfl
  refine ⟨fun A => wrapper_stored_inplace tg cfg T A, ?_, ?_, ?_, ?_, ?_, ?_, ?_⟩
  · intro A q
    simp [candidates_in_place, wrapper_stored_inplace]
  · intro a p
    rw [hfuel, resolve_eq_dispatch]
    simp [dispatch, hq, hnf]
  · intro a v hv
    rw [hfuel, resolve_eq_dispatch]
    simp [dispatch, hq, hnf, hv]
  · intro p
    rw [hfuel, resolve_eq_dispatch]
    simp [dispatch, hq, hnf]
  · intro v hv
    rw [hfuel, resolve_eq_dispatch]
    simp [dispatch, hq, hnf, hv]
  · intro call w w1 self hheld hc
    obtain ⟨X, q, n, hdisp, -, -, hctor⟩ := construct_done tg cfg w w1 self call hc
    obtain ⟨o, evs, hty, hv, hst, -⟩ := in_place_ctor_ok w w1 self X X q hctor
    obtain ⟨T2, hheld2, hcase⟩ := dispatch_place tg cfg call X q n hdisp
    rw [hheld] at hheld2
    injection hheld2 with hT
    subst hT
    rcases hcase with ⟨hf, -, -⟩ | ⟨-, -, hX, -⟩
    · rw [hnf] at hf; cases hf
    · subst hX
      exact ⟨by simp [hv], o, by simp [hst], hty⟩
  · intro call w self hheld hal hc ht hoom
    obtain ⟨id, size, align, supported, hobj⟩ := not_fits_obj tg cfg T hnf
    have hd : ∃ n, dispatch tg cfg call =
        .place (.any_heap_allocated_storage T (call.allocator cfg).ty)
          (.tagged (call.allocator cfg) T call.pack) n := by
      cases call with
      | value V v =>
        cases V with
        | other U =>
          simp only [Call.held] at hheld
          injection hheld with hU
          subst hU
          simp only [Call.has_allocator] at hal
          subst hobj
          simp only [Call.pack, constructible_from] at hc
          exact ⟨3, by simp [dispatch, hq, hnf, hc, hal, Call.allocator, Call.pack,
            Config.default_allocator]⟩
        | _ => simp [Call.held] at hheld
      | alloc_value a U v =>
        simp only [Call.held] at hheld
        injection hheld with hU
        subst hU
        subst hobj
        simp only [Call.pack, constructible_from] at hc
        exact ⟨2, by simp [dispatch, hq, hnf, hc, Call.allocator, Call.pack]⟩
      | in_place U p =>
        simp only [Call.held] at hheld
        injection hheld with hU
        subst hU
        simp only [Call.has_allocator] at hal
        exact ⟨2, by simp [dispatch, hq, hnf, hal, Call.allocator, Call.pack,
          Config.default_allocator]⟩
      | alloc_in_place a U p =>
        simp only [Call.held] at hheld
        injection hheld with hU
        subst hU
        exact ⟨1, by simp [dispatch, hq, hnf, Call.allocator, Call.pack]⟩
    obtain ⟨n, hn⟩ := hd
    exact construct_completes tg cfg w self call _ _ n hn
      (wrapper_type_erased cfg T _ hq)
      (by simp [constructible_from, hc]) (by simpa [Pack.throws] using ht) (Or.inl hoom)

/-- C6: for a user type `T` that fits the storage region, every construction path
(value, `in_place_type<T>`, `allocator_arg` with a value or `in_place_type<T>`) logs the
table initialisation and the placement of `T` and no heap traffic, whether `T`'s
constructor returns or throws; each path is either rejected or behaves as the plain
`in_place_type<T>` construction with the same arguments, and it is not rejected when `T`
qualifies and is constructible from the arguments, the supplied allocator having no
effect. -/
theorem C6_inline_never_allocates (tg : Target) (cfg : Config) (id size align : Nat)
    (supported : List CPO) (call : Call) (w : World) (self : Addr)
    (hheld : call.held = some (.obj id size align supported))
    (hfit : can_be_stored_inplace_v tg cfg (.obj id size align supported) = true) :
    (∀ w1, construct tg cfg w self call = .done w1 ∨ construct tg cfg w self call = .threw w1 →
      w1.allocations = w.allocations ∧ w1.deallocations = w.deallocations ∧
      w1.log = w.log ++ [Event.vtable_init self (.obj id size align supported),
        Event.placement_new self (.obj id size align supported)]) ∧
    (construct tg cfg w self call = .no_viable_overload ∨
      construct tg cfg w self call =
        construct tg cfg w self (.in_place (.obj id size align supported) call.pack)) ∧
    (can_be_type_erased_v cfg (.obj id size align supported) = true →
      constructible_from (.obj id size align supported) call.pack = true →
      construct tg cfg w self call =
        construct tg cfg w self (.in_place (.obj id size align supported) call.pack)) := by
  have key : ∀ X q n, dispatch tg cfg call = .place X q n →
      X = .obj id size align supported ∧ q = call.pack := by
    intro X q n hd
    obtain ⟨T2, hheld2, hcase⟩ := dispatch_place tg cfg call X q n hd
    rw [hheld] at hheld2
    injection hheld2 with hT
    subst hT
    rcases hcase with ⟨-, hX, hq⟩ | ⟨hf, -⟩
    · exact ⟨hX, hq⟩
    · rw [hfit] at hf; cases hf
  have hin : dispatch tg cfg (.in_place (.obj id size align supported) call.pack) =
      .place (.obj id size align supported) call.pack 0 := by
    simp [dispatch, hfit]
  have hsame : ∀ n, dispatch tg cfg call = .place (.obj id size align supported) call.pack n →
      construct tg cfg w self call =
        construct tg cfg w self (.in_place (.obj id size align supported) call.pack) := by
    intro n hn
    rw [construct_eq, construct_eq, hn, hin]
  have hd : can_be_type_erased_v cfg (.obj id size align supported) = true →
      constructible_from (.obj id size align supported) call.pack = true →
      ∃ n, dispatch tg cfg call = .place (.obj id size align supported) call.pack n := by
    intro hq hcf
    cases call with
    | value V v =>
      cases V with
      | other U =>
        simp only [Call.held] at hheld
        injection hheld with hU
        subst hU
        simp only [Call.pack, constructible_from] at hcf
        exact ⟨1, by simp [dispatch, hq, hcf, hfit, Call.pack]⟩
      | _ => simp [Call.held] at hheld
    | alloc_value a U v =>
      simp only [Call.held] at hheld
      injection hheld with hU
      subst hU
      simp only [Call.pack, constructible_from] at hcf
      exact ⟨2, by simp [dispatch, hq, hcf, hfit, Call.pack]⟩
    | in_place U p =>
      simp only [Call.held] at hheld
      injection hheld with hU
      subst hU
      exact ⟨0, by simp [dispatch, hfit, Call.pack]⟩
    | alloc_in_place a U p =>
      simp only [Call.held] at hheld
      injection hheld with hU
      subst hU
      exact ⟨1, by simp [dispatch, hq, hfit, Call.pack]⟩
  refine ⟨?_, ?_, ?_⟩
  · intro w1 h
    rcases h with h | h
    · obtain ⟨X, q, n, hdisp, -, -, hctor⟩ := construct_done tg cfg w w1 self call h
      obtain ⟨hX, -⟩ := key X q n hdisp
      subst hX
      unfold in_place_ctor at hctor
      simp only [construct_object_obj, World.emit] at hctor
      split at hctor
      · simp at hctor
      · rename_i w3 o heq
        split at heq
        · simp at heq
        · simp at heq hctor
          obtain ⟨rfl, rfl⟩ := heq
          subst hctor
          simp
    · obtain ⟨X, q, n, hdisp, -, -, hctor⟩ := construct_threw tg cfg w w1 self call h
      obtain ⟨hX, -⟩ := key X q n hdisp
      subst hX
      unfold in_place_ctor at hctor
      simp only [construct_object_obj, World.emit] at hctor
      split at hctor
      · rename_i w3 heq
        split at heq
        · simp at heq hctor
          subst heq
          subst hctor
          simp
        · simp at heq
      · simp at hctor
  · cases hdc : dispatch tg cfg call with
    | place X q n =>
      obtain ⟨hX, hq⟩ := key X q n hdc
      subst hX hq
      exact Or.inr (hsame n hdc)
    | no_viable_overload =>
      left
      rw [construct_eq, hdc]
    | ill_formed =>
      exfalso
      cases call with
      | value V v =>
        cases V with
        | other U =>
          simp only [Call.held] at hheld
          injection hheld with hU
          subst hU
          simp only [dispatch, hfit] at hdc
          split at hdc <;> simp at hdc
        | _ => simp [Call.held] at hheld
      | alloc_value a U v => simp only [dispatch] at hdc; split at hdc <;> (try split at hdc) <;> simp at hdc
      | in_place U p => simp only [dispatch] at hdc; split at hdc <;> (try split at hdc) <;> simp at hdc
      | alloc_in_place a U p => simp only [dispatch] at hdc; split at hdc <;> (try split at hdc) <;> simp at hdc
    | ambiguous =>
      exfalso
      cases call with
      | value V v =>
        cases V <;> simp only [dispatch] at hdc <;> (try split at hdc) <;> (try split at hdc) <;>
          (try split at hdc) <;> simp at hdc
      | alloc_value a U v => simp only [dispatch] at hdc; split at hdc <;> (try split at hdc) <;> simp at hdc
      | in_place U p => simp only [dispatch] at hdc; split at hdc <;> (try split at hdc) <;> simp at hdc
      | alloc_in_place a U p => simp only [dispatch] at hdc; split at hdc <;> (try split at hdc) <;> simp at hdc
    | out_of_fuel =>
      exfalso
      cases call with
      | value V v =>
        cases V <;> simp only [dispatch] at hdc <;> (try split at hdc) <;> (try split at hdc) <;>
          (try split at hdc) <;> simp at hdc
      | alloc_value a U v => simp only [dispatch] at hdc; split at hdc <;> (try split at hdc) <;> simp at hdc
      | in_place U p => simp only [dispatch] at hdc; split at hdc <;> (try split at hdc) <;> simp at hdc
      | alloc_in_place a U p => simp only [dispatch] at hdc; split at hdc <;> (try split at hdc) <;> simp at hdc
  · intro hq hcf
    obtain ⟨n, hn⟩ := hd hq hcf
    exact hsame n hn

theorem dispatch_ne_out_of_fuel (tg : Target) (cfg : Config) (call : Call) :
    dispatch tg cfg call ≠ .out_of_fuel := by
  cases call with
  | value V v =>
    cases V <;> simp only [dispatch] <;> (try split) <;> (try split) <;> (try split) <;> simp
  | alloc_value a U v => simp only [dispatch]; split <;> (try split) <;> simp
  | in_place U p => simp only [dispatch]; split <;> (try split) <;> simp
  | alloc_in_place a U p => simp only [dispatch]; split <;> (try split) <;> simp

theorem dispatch_delegations_le (tg : Target) (cfg : Config) (call : Call) (X : Ty)
    (q : Pack) (k : Nat) (h : dispatch tg cfg call = .place X q k) : k ≤ 3 := by
  cases call with
  | value V v =>
    cases V <;> simp only [dispatch] at h <;> (try split at h) <;> (try split at h) <;>
      (try split at h) <;> simp at h <;> omega
  | alloc_value a U v =>
    simp only [dispatch] at h; split at h <;> (try split at h) <;> simp at h <;> omega
  | in_place U p =>
    simp only [dispatch] at h; split at h <;> (try split at h) <;> simp at h <;> omega
  | alloc_in_place a U p =>
    simp only [dispatch] at h; split at h <;> (try split at h) <;> simp at h <;> omega

/-- C10: for a qualifying type the two `in_place_type<T>` overloads never both have their
requirement satisfied and, with a default-constructible `DefaultAllocator`, exactly one
has; exactly one of the two `allocator_arg` + `in_place_type<T>` overloads has; resolving
any call gives the same result with every amount of fuel from four calls on, never runs
out of it, and reaches lines 122-123 after at most three delegations; every public
constructor call for the type reaches them when it has an allocator to use, the longest
chain being value, `in_place_type<T>`, `allocator_arg` + `in_place_type<T>`,
`in_place_type<wrapper>`. -/
theorem C10_dispatch_total (tg : Target) (cfg : Config) (T : Ty)
    (hq : can_be_type_erased_v cfg T = true) :
    (∀ p, ¬ (requirement tg cfg .in_place_inline (.in_place T p) = true ∧
        requirement tg cfg .in_place_heap (.in_place T p) = true)) ∧
    (cfg.DefaultAllocator.is_default_constructible = true → ∀ p,
      requirement tg cfg .in_place_heap (.in_place T p) =
        !requirement tg cfg .in_place_inline (.in_place T p) ∧
      (candidates tg cfg (.in_place T p)).length = 1) ∧
    (∀ a p,
      requirement tg cfg .alloc_in_place_heap (.alloc_in_place a T p) =
        !requirement tg cfg .alloc_in_place_inline (.alloc_in_place a T p) ∧
      (candidates tg cfg (.alloc_in_place a T p)).length = 1) ∧
    (∀ call n, resolve tg cfg (n + resolve_fuel) call = resolve tg cfg resolve_fuel call ∧
      resolve tg cfg resolve_fuel call ≠ .out_of_fuel ∧
      ∀ X q k, resolve tg cfg resolve_fuel call = .place X q k → k ≤ 3) ∧
    (∀ a p, resolve tg cfg resolve_fuel (.alloc_in_place a T p) =
      if can_be_stored_inplace_v tg cfg T then .place T p 1
      else .place (.any_heap_allocated_storage T a.ty) (.tagged a T p) 1) ∧
    (∀ a v, v.constructible = true →
      resolve tg cfg resolve_fuel (.alloc_value a T v) =
        if can_be_stored_inplace_v tg cfg T then .place T (.plain v) 2
        else .place (.any_heap_allocated_storage T a.ty) (.tagged a T (.plain v)) 2) ∧
    (cfg.DefaultAllocator.is_default_constructible = true → ∀ p,
      resolve tg cfg resolve_fuel (.in_place T p) =
        if can_be_stored_inplace_v tg cfg T then .place T p 0
        else .place (.any_heap_allocated_storage T cfg.DefaultAllocator)
          (.tagged cfg.default_allocator T p) 2) ∧
    (cfg.DefaultAllocator.is_default_constructible = true → ∀ v, v.constructible = true →
      resolve tg cfg resolve_fuel (.value (.other T) v) =
        if can_be_stored_inplace_v tg cfg T then .place T (.plain v) 1
        else .place (.any_heap_allocated_storage T cfg.DefaultAllocator)
          (.tagged cfg.default_allocator T (.plain v)) 3) ∧
    (can_be_stored_inplace_v tg cfg T = false →
      cfg.DefaultAllocator.is_default_constructible = true → ∀ v, v.constructible = true →
      resolve tg cfg 3 (.value (.other T) v) = .out_of_fuel) := by
  have hfuel : resolve_fuel = 0 + 4 := rfl
  refine ⟨?_, ?_, ?_, ?_, ?_, ?_, ?_, ?_, ?_⟩
  · intro p
    simp [requirement]
    intro h; simp [h]
  · intro hdc p
    cases h1 : can_be_stored_inplace_v tg cfg T <;>
      simp [requirement, candidates_in_place, hq, hdc, h1]
  · intro a p
    cases h1 : can_be_stored_inplace_v tg cfg T <;>
      simp [requirement, candidates_alloc_in_place, hq, h1]
  · intro call n
    rw [hfuel, ← Nat.add_assoc, resolve_eq_dispatch, resolve_eq_dispatch]
    exact ⟨rfl, dispatch_ne_out_of_fuel tg cfg call,
      fun X q k h => dispatch_delegations_le tg cfg call X q k h⟩
  · intro a p
    rw [hfuel, resolve_eq_dispatch]
    cases h1 : can_be_stored_inplace_v tg cfg T <;> simp [dispatch, hq, h1]
  · intro a v hv
    rw [hfuel, resolve_eq_dispatch]
    cases h1 : can_be_stored_inplace_v tg cfg T <;> simp [dispatch, hq, h1, hv]
  · intro hdc p
    rw [hfuel, resolve_eq_dispatch]
    cases h1 : can_be_stored_inplace_v tg cfg T <;> simp [dispatch, hq, h1, hdc]
  · intro hdc v hv
    rw [hfuel, resolve_eq_dispatch]
    cases h1 : can_be_stored_inplace_v tg cfg T <;> simp [dispatch, hq, h1, hdc, hv]
  · intro h1 hdc v hv
    simp [resolve, candidates_value, candidates_in_place, candidates_alloc_in_place,
      body, hq, h1, hdc, hv]

/-- C8 (as amended): a type whose size is exactly `InlineSize` and whose alignment is
exactly `InlineAlignment` is stored inline; a type one byte larger with the same
alignment fails `can_be_stored_inplace_v`, and when it qualifies is stored through the
heap wrapper, exactly when `sizeof(void*) <= InlineSize`. -/
theorem C8_boundary_padded (tg : Target) (cfg : Config) (T1 T2 : Ty)
    (h1s : sizeof tg T1 = cfg.InlineSize) (h1a : alignof tg T1 = cfg.InlineAlignment)
    (h2s : sizeof tg T2 = cfg.InlineSize + 1) (h2a : alignof tg T2 = cfg.InlineAlignment) :
    can_be_stored_inplace_v tg cfg T1 = true ∧
    (∀ p, resolve tg cfg resolve_fuel (.in_place T1 p) = .place T1 p 0) ∧
    (can_be_stored_inplace_v tg cfg T2 = false ↔ tg.sizeof_ptr ≤ cfg.InlineSize) ∧
    (tg.sizeof_ptr ≤ cfg.InlineSize → can_be_type_erased_v cfg T2 = true → ∀ a p,
      resolve tg cfg resolve_fuel (.alloc_in_place a T2 p) =
        .place (.any_heap_allocated_storage T2 a.ty) (.tagged a T2 p) 1) ∧
    (cfg.InlineSize < tg.sizeof_ptr → ∀ p,
      resolve tg cfg resolve_fuel (.in_place T2 p) = .place T2 p 0) := by
  have hfuel : resolve_fuel = 0 + 4 := rfl
  have hf1 : can_be_stored_inplace_v tg cfg T1 = true := by
    rw [can_be_stored_inplace_v_iff, h1s, h1a]
    exact ⟨le_max_left _ _, le_max_left _ _⟩
  have hf2 : can_be_stored_inplace_v tg cfg T2 = false ↔ tg.sizeof_ptr ≤ cfg.InlineSize := by
    rw [← Bool.not_eq_true, can_be_stored_inplace_v_iff, h2s, h2a]
    constructor
    · intro h
      by_contra hc
      apply h
      exact ⟨by rw [le_max_iff]; right; omega, le_max_left _ _⟩
    · intro h hc
      have := hc.1
      rw [le_max_iff] at this
      omega
  refine ⟨hf1, ?_, hf2, ?_, ?_⟩
  · intro p
    rw [hfuel, resolve_eq_dispatch]
    simp [dispatch, hf1]
  · intro hle hq a p
    rw [hfuel, resolve_eq_dispatch]
    simp [dispatch, hq, hf2.2 hle]
  · intro hlt p
    have : can_be_stored_inplace_v tg cfg T2 = true := by
      cases h : can_be_stored_inplace_v tg cfg T2
      · have := hf2.1 h; omega
      · rfl
    rw [hfuel, resolve_eq_dispatch]
    simp [dispatch, this]

/-- C8 fails as stated: with four bytes of inline capacity on LP64 the type one byte
larger than the capacity satisfies `can_be_stored_inplace_v` and is placed inline. -/
theorem C8_one_byte_larger_still_inline :
    sizeof lp64 bytes5 = cfg4.InlineSize + 1 ∧ alignof lp64 bytes5 = cfg4.InlineAlignment ∧
    can_be_type_erased_v cfg4 bytes5 = true ∧
    can_be_stored_inplace_v lp64 cfg4 bytes5 = true ∧
    resolve lp64 cfg4 resolve_fuel (.value (.other bytes5) good_args) =
      .place bytes5 (.plain good_args) 1 := by
  decide

/-- C3 at the failing input: for a one-byte type without a move constructor the
requirement of the inline `in_place_type<T>` overload (lines 118-119) is satisfied
although `can_be_type_erased_v<T>` is false; the other five overloads reject it. -/
theorem C3_inline_in_place_not_constrained :
    can_be_type_erased_v cfg16 pinned = false ∧
    requirement lp64 cfg16 .in_place_inline (.in_place pinned (.plain good_args)) = true ∧
    candidates lp64 cfg16 (.in_place pinned (.plain good_args)) = [Ctor.in_place_inline] ∧
    resolve lp64 cfg16 resolve_fuel (.in_place pinned (.plain good_args)) =
      .place pinned (.plain good_args) 0 ∧
    candidates lp64 cfg16 (.value (.other pinned) good_args) = [] ∧
    candidates lp64 cfg16 (.alloc_value ⟨std_allocator, 0⟩ pinned good_args) = [] ∧
    candidates lp64 cfg16 (.alloc_in_place ⟨std_allocator, 0⟩ pinned (.plain good_args)) = [] := by
  decide

/-- C4: move-constructing the handle at `d` from the handle at `s` (table `X`) logs
exactly the initialisation of `d`'s table reference to `X` followed by one call of `X`'s
move-construct entry with `(d, s)`; `s` keeps its table reference through whatever
follows, so that its destructor calls `X`'s destroy entry with `s`, never with `d`,
and leaves `d`'s table reference and storage alone. -/
theorem C4_move_construct (w w1 w2 w3 : World) (d s : Addr) (throws : Bool) (X : Ty)
    (ops : List Op)
    (hs : w.vtable_ s = some X)
    (hm : move_ctor w d s throws = some w1)
    (hops : run ops w1 = some w2) (hnd : Op.destroy s ∉ ops)
    (hd : destructor w2 s = some w3) :
    w1.log = w.log ++ [Event.vtable_init d X, Event.move_construct X d s] ∧
    (w1.vtable_ d = some X ∨ (throws = true ∧ w1.vtable_ d = none ∧ w1.storage_ d = none)) ∧
    w1.vtable_ s = some X ∧ w2.vtable_ s = some X ∧ d ≠ s ∧
    (∃ evs, w3.log = w2.log ++ Event.destroy X s :: evs ∧ ∀ e ∈ evs, e.is_heap = true) ∧
    (∀ Y, Event.destroy Y d ∉ w3.log.drop w2.log.length) ∧
    w3.vtable_ d = w2.vtable_ d ∧ w3.storage_ d = w2.storage_ d := by
  obtain ⟨Y, o, hvs, hvd, hss, hsd, hty, hlog, -, -, -, hcase⟩ := move_ctor_some w w1 d s throws hm
  rw [hs] at hvs
  injection hvs with hXY
  subst hXY
  have hds : d ≠ s := by
    intro e; subst e; rw [hs] at hvd; cases hvd
  have h1s : w1.vtable_ s = some X := by
    rcases hcase with ⟨-, hv, -⟩ | ⟨-, hv, -⟩ <;> simp [hv, set, Ne.symm hds, hs]
  have h2s : w2.vtable_ s = some X := run_vtable_keep ops s X w1 w2 hops hnd h1s
  obtain ⟨Z, o2, hv2, hs2, hty2, hv3, hst3, hlog3, -⟩ := destructor_some w2 w3 s hd
  rw [h2s] at hv2
  injection hv2 with hXZ
  subst hXZ
  obtain ⟨-, -, -, -, -, evs, h6, h7⟩ := destroy_object_frame o2 (w2.emit (.destroy X s))
  have hlog3b : w3.log = w2.log ++ Event.destroy X s :: evs := by
    rw [hlog3, h6]; simp [World.emit]
  refine ⟨hlog, ?_, h1s, h2s, hds, ⟨evs, hlog3b, h7⟩, ?_, ?_, ?_⟩
  · rcases hcase with ⟨-, hv, -⟩ | ⟨ht, hv, hst⟩
    · left; simp [hv]
    · right
      refine ⟨?_, by simp [hv], by rw [hst]; exact hsd⟩
      cases throws <;> simp at ht ⊢
  · intro Y hY
    rw [hlog3b] at hY
    simp at hY
    rcases hY with hY | hY
    · exact hds hY.2
    · have := h7 _ hY
      simp [Event.is_heap] at this
  · simp [hv3, set, hds]
  · simp [hst3, set, hds]

/-- C9: starting from a consistent state, after a completed construction and any
sequence of later operations every handle's table reference is the table created for
the type of the object in its storage; the constructed handle holds an object of the
held type `T` when `T` fits and of the wrapper for `(T, Allocator)` otherwise; and the
constructor initialises the table reference before it places the object. -/
theorem C9_handle_consistency (tg : Target) (cfg : Config) (w w1 w2 : World) (self : Addr)
    (call : Call) (ops : List Op)
    (hw : consistent w)
    (hc : construct tg cfg w self call = .done w1)
    (hr : run ops w1 = some w2) :
    consistent w1 ∧ consistent w2 ∧
    (∃ T o, call.held = some T ∧ w1.storage_ self = some o ∧ w1.vtable_ self = some o.ty ∧
      o.ty = if can_be_stored_inplace_v tg cfg T then T
             else .any_heap_allocated_storage T (call.allocator cfg).ty) ∧
    (∃ X evs, w1.log = w.log ++ [Event.vtable_init self X, Event.placement_new self X] ++ evs ∧
      ∀ e ∈ evs, e.is_heap = true) := by
  obtain ⟨X, q, n, hdisp, -, -, hctor⟩ := construct_done tg cfg w w1 self call hc
  obtain ⟨o, evs, hty, hv, hst, hlog, hheap, -⟩ := in_place_ctor_ok w w1 self X X q hctor
  have hc1 : consistent w1 := by
    intro a
    rw [hv, hst]
    by_cases ha : a = self
    · subst ha; right; exact ⟨o, by simp, by simp [hty]⟩
    · simpa [set, ha] using hw a
  refine ⟨hc1, consistent_run ops w1 w2 hc1 hr, ?_, ⟨X, evs, hlog, hheap⟩⟩
  obtain ⟨T, hheld, hcase⟩ := dispatch_place tg cfg call X q n hdisp
  refine ⟨T, o, hheld, by simp [hst], by simp [hv, hty], ?_⟩
  rcases hcase with ⟨hf, hX, -⟩ | ⟨hf, -, hX, -⟩ <;> simp [hf, hty, hX]

/-- C5: over the life of the handle at `self` the destroy entry is called with the
address `self` exactly once, through the handle's own table, when construction
completed, and not at all when the construction attempt failed; and the destructor logs
that one call and nothing else of its own (what follows is the entry's heap traffic). -/
theorem C5_destroy_exactly_once (tg : Target) (cfg : Config) (w w9 : World) (self : Addr)
    (call : Call) (ops : List Op)
    (hnd : Op.destroy self ∉ ops)
    (hl : lifecycle tg cfg w self call ops = some w9) :
    destroy_calls self w9.log = destroy_calls self w.log +
      (match construct tg cfg w self call with
       | .done _ => 1
       | _ => 0) ∧
    (∀ w1, construct tg cfg w self call = .done w1 →
      ∃ X, w1.vtable_ self = some X ∧
        w9.log.count (Event.destroy X self) = w.log.count (Event.destroy X self) + 1) ∧
    (∀ w2 w3, destructor w2 self = some w3 →
      ∃ X evs, w2.vtable_ self = some X ∧ w3.log = w2.log ++ Event.destroy X self :: evs ∧
        ∀ e ∈ evs, e.is_heap = true) := by
  have hdtor : ∀ w2 w3, destructor w2 self = some w3 →
      ∃ X evs, w2.vtable_ self = some X ∧ w3.log = w2.log ++ Event.destroy X self :: evs ∧
        ∀ e ∈ evs, e.is_heap = true := by
    intro w2 w3 hd
    obtain ⟨Z, o2, hv2, -, -, -, -, hlog3, -⟩ := destructor_some w2 w3 self hd
    obtain ⟨-, -, -, -, -, evs, h6, h7⟩ := destroy_object_frame o2 (w2.emit (.destroy Z self))
    exact ⟨Z, evs, hv2, by rw [hlog3, h6]; simp [World.emit], h7⟩
  refine ⟨?_, ?_, hdtor⟩
  · unfold lifecycle at hl
    cases hc : construct tg cfg w self call with
    | no_viable_overload => simp [hc] at hl; subst hl; simp
    | ill_formed => simp [hc] at hl; subst hl; simp
    | threw w1 =>
      simp [hc] at hl
      subst hl
      obtain ⟨X, q, n, -, -, -, hctor⟩ := construct_threw tg cfg w w1 self call hc
      obtain ⟨evs, -, -, hlog, hheap, -⟩ := in_place_ctor_error w w1 self X X q hctor
      rw [hlog, destroy_calls_append, destroy_calls_append, destroy_calls_heap self evs hheap]
      simp [destroy_calls]
    | done w1 =>
      simp only [hc] at hl
      obtain ⟨X, q, n, -, -, -, hctor⟩ := construct_done tg cfg w w1 self call hc
      obtain ⟨o, evs, -, -, -, hlog, hheap, -⟩ := in_place_ctor_ok w w1 self X X q hctor
      cases hrun : run ops w1 with
      | none => simp [hrun] at hl
      | some w2 =>
        simp only [hrun] at hl
        obtain ⟨Z, evs2, -, hlog2, hheap2⟩ := hdtor w2 w9 hl
        obtain ⟨mid, hmid, hmid0⟩ := run_log ops self w1 w2 hrun hnd
        rw [hlog2, destroy_calls_append, hmid, destroy_calls_append, hmid0, hlog,
          destroy_calls_append, destroy_calls_append, destroy_calls_heap self evs hheap]
        have : destroy_calls self (Event.destroy Z self :: evs2) = 1 := by
          have h0 := destroy_calls_heap self evs2 hheap2
          unfold destroy_calls at h0 ⊢
          rw [List.countP_cons, h0]
          simp
        rw [this]
        simp [destroy_calls]
  · intro w1 hc
    unfold lifecycle at hl
    simp only [hc] at hl
    obtain ⟨X, q, n, -, -, -, hctor⟩ := construct_done tg cfg w w1 self call hc
    obtain ⟨o, evs, -, hv, -, hlog, hheap, -⟩ := in_place_ctor_ok w w1 self X X q hctor
    have hv1 : w1.vtable_ self = some X := by simp [hv]
    refine ⟨X, hv1, ?_⟩
    cases hrun : run ops w1 with
    | none => simp [hrun] at hl
    | some w2 =>
      simp only [hrun] at hl
      obtain ⟨Z, evs2, hvZ, hlog2, hheap2⟩ := hdtor w2 w9 hl
      rw [run_vtable_keep ops self X w1 w2 hrun hnd hv1] at hvZ
      injection hvZ with hXZ
      subst hXZ
      obtain ⟨mid, hmid, hmid0⟩ := run_log ops self w1 w2 hrun hnd
      have hm0 : mid.count (Event.destroy X self) = 0 := by
        have := count_le_destroy_calls self X mid
        omega
      have he0 : evs.count (Event.destroy X self) = 0 :=
        count_destroy_heap _ evs rfl hheap
      have he2 : evs2.count (Event.destroy X self) = 0 :=
        count_destroy_heap _ evs2 rfl hheap2
      rw [hlog2, hmid, hlog]
      simp [List.count_append, List.count_cons, hm0, he0, he2]

/-- C7: a completed construction of a handle for a type that does not fit, in a program
that has allocated nothing yet, performs exactly one allocation, through the selected
allocator; destroying that handle performs exactly one deallocation, of that block
through that allocator; and after any sequence of move-constructions and destructions
one block has been allocated and at most one released, exactly one once every handle is
destroyed. -/
theorem C7_one_allocation_one_release (tg : Target) (cfg : Config) (oom : Bool)
    (self : Addr) (call : Call) (T : Ty) (w1 : World)
    (hheld : call.held = some T)
    (hnf : can_be_stored_inplace_v tg cfg T = false)
    (hc : construct tg cfg (World.init oom) self call = .done w1) :
    w1.allocations = 1 ∧ w1.deallocations = 0 ∧
    w1.log.filter Event.is_heap = [Event.allocate (call.allocator cfg) 0] ∧
    (∃ w2, destructor w1 self = some w2 ∧ w2.allocations = 1 ∧ w2.deallocations = 1 ∧
      w2.log.filter Event.is_heap =
        [Event.allocate (call.allocator cfg) 0, Event.deallocate (call.allocator cfg) 0]) ∧
    (∀ ops w2, run ops w1 = some w2 →
      w2.allocations = 1 ∧ w2.deallocations ≤ 1 ∧
      ((∀ a, w2.vtable_ a = none) → w2.deallocations = 1)) := by
  obtain ⟨-, -, hv, hst, ha, hd, -, hlog⟩ :=
    construct_heap_done tg cfg (World.init oom) w1 self call T hheld hnf hc
  simp only [World.init] at hv hst ha hd hlog
  refine ⟨by omega, by omega, by simp [hlog, Event.is_heap], ?_, ?_⟩
  · have hvs : w1.vtable_ self =
        some (.any_heap_allocated_storage T (call.allocator cfg).ty) := by simp [hv]
    have hss : w1.storage_ self = some (.owning T (call.allocator cfg).ty
        (call.allocator cfg) 0 (.direct T)) := by simp [hst]
    simp only [destructor, destroy_entry, World.emit, hvs, hss, Obj.ty, if_true,
      destroy_object]
    refine ⟨_, rfl, ?_, ?_, ?_⟩
    · simp [ha]
    · simp [hd]
    · simp [hlog, Event.is_heap]
  · intro ops w2 hrun
    have hinv : one_owner (.owning T (call.allocator cfg).ty (call.allocator cfg) 0 (.direct T))
        (.released T (call.allocator cfg).ty) w1 := by
      refine ⟨?_, by omega, ?_, ?_⟩
      · intro a
        rw [hv, hst]
        by_cases ha : a = self
        · subst ha; right; exact ⟨.owning T (call.allocator cfg).ty (call.allocator cfg) 0 (.direct T), by simp, by simp [Obj.ty]⟩
        · left; simp [set, ha]
      · intro a o ho
        rw [hst] at ho
        by_cases ha : a = self
        · subst ha; simp at ho; left; exact ho.symm
        · simp [set, ha] at ho
      · left
        refine ⟨by omega, self, by simp [hst], ?_⟩
        intro b hb
        rw [hst] at hb
        by_contra hbs
        simp [set, hbs] at hb
    obtain ⟨hcons, hall, -, hbal⟩ := one_owner_run
      (.owning T (call.allocator cfg).ty (call.allocator cfg) 0 (.direct T))
      (.released T (call.allocator cfg).ty) rfl rfl rfl (by simp)
      (by simp [Obj.blocks]) (by simp [Obj.blocks]) ops w1 w2 hinv hrun
    refine ⟨hall, ?_, ?_⟩
    · rcases hbal with ⟨h0, -⟩ | ⟨h1, -⟩ <;> omega
    · intro hnone
      rcases hbal with ⟨-, a0, ha0, -⟩ | ⟨h1, -⟩
      · exfalso
        rcases hcons a0 with ⟨-, hs⟩ | ⟨o, -, hvt⟩
        · rw [hs] at ha0; cases ha0
        · rw [hnone a0] at hvt; cases hvt
      · exact h1

/-- C1 at `bytes16` in `cfg16` on LP64: the construction completes, with `bytes16`
itself in the storage and its table in the handle. -/
theorem C1_in_place_iff_fits_witness :
    construct lp64 cfg16 (World.init false) 0 (.in_place bytes16 (.plain good_args)) =
      .done inline_world ∧
    inline_world.vtable_ 0 = some bytes16 ∧
    inline_world.storage_ 0 = some (.direct bytes16) ∧
    inline_world.log = [Event.vtable_init 0 bytes16, Event.placement_new 0 bytes16] ∧
    (∃ w1 o evs,
      construct lp64 cfg16 (World.init false) 0 (.in_place bytes16 (.plain good_args)) =
        .done w1 ∧
      w1.vtable_ 0 = some bytes16 ∧ w1.storage_ 0 = some o ∧ o.ty = bytes16 ∧
      w1.log = (World.init false).log ++
        [Event.vtable_init 0 bytes16, Event.placement_new 0 bytes16] ++ evs ∧
      ∀ e ∈ evs, e.is_heap = true) :=
  ⟨rfl, rfl, rfl, rfl,
    (C1_in_place_iff_fits lp64 cfg16 bytes16 (.plain good_args) (World.init false)
      0).2.2.2.2.2 (by decide) (by decide) (by decide) (by decide) (Or.inl rfl)⟩

/-- C2 at `bytes17` in `cfg16` on LP64, with a supplied allocator that has no default
constructor: the chain ends at the wrapper, and the construction completes with the
wrapper in the storage and its table in the handle. -/
theorem C2_heap_wrapper_stored_witness :
    can_be_type_erased_v cfg16 bytes17 = true ∧
    can_be_stored_inplace_v lp64 cfg16 bytes17 = false ∧
    resolve lp64 cfg16 resolve_fuel
        (.alloc_value ⟨arena_allocator, 7⟩ bytes17 good_args) =
      .place (.any_heap_allocated_storage bytes17 arena_allocator)
        (.tagged ⟨arena_allocator, 7⟩ bytes17 (.plain good_args)) 2 ∧
    construct lp64 cfg16 (World.init false) 0
        (.alloc_value ⟨arena_allocator, 7⟩ bytes17 good_args) = .done arena_world ∧
    arena_world.vtable_ 0 = some (.any_heap_allocated_storage bytes17 arena_allocator) ∧
    (∃ o, arena_world.storage_ 0 = some o ∧
      o.ty = .any_heap_allocated_storage bytes17 arena_allocator) ∧
    (∃ w1 o evs,
      construct lp64 cfg16 (World.init false) 0
        (.alloc_value ⟨arena_allocator, 7⟩ bytes17 good_args) = .done w1 ∧
      w1.vtable_ 0 = some (.any_heap_allocated_storage bytes17 arena_allocator) ∧
      w1.storage_ 0 = some o ∧
      o.ty = .any_heap_allocated_storage bytes17 arena_allocator ∧
      w1.log = (World.init false).log ++
        [Event.vtable_init 0 (.any_heap_allocated_storage bytes17 arena_allocator),
         Event.placement_new 0 (.any_heap_allocated_storage bytes17 arena_allocator)]
        ++ evs ∧
      ∀ e ∈ evs, e.is_heap = true) :=
  ⟨by decide, by decide,
    (C2_heap_wrapper_stored lp64 cfg16 bytes17 (by decide) (by decide)).2.2.2.1
      ⟨arena_allocator, 7⟩ good_args rfl,
    rfl,
    ((C2_heap_wrapper_stored lp64 cfg16 bytes17 (by decide) (by decide)).2.2.2.2.2.2.1
      (.alloc_value ⟨arena_allocator, 7⟩ bytes17 good_args) (World.init false) arena_world 0
      rfl rfl).1,
    ((C2_heap_wrapper_stored lp64 cfg16 bytes17 (by decide) (by decide)).2.2.2.2.2.2.1
      (.alloc_value ⟨arena_allocator, 7⟩ bytes17 good_args) (World.init false) arena_world 0
      rfl rfl).2,
    (C2_heap_wrapper_stored lp64 cfg16 bytes17 (by decide) (by decide)).2.2.2.2.2.2.2
      (.alloc_value ⟨arena_allocator, 7⟩ bytes17 good_args) (World.init false) 0
      rfl rfl (by decide) (by decide) rfl⟩

/-- C4 at a heap-backed handle at address 0 moved to address 1 and then destroyed. -/
theorem C4_move_construct_witness :
    moved_world.log = heap_world.log ++
      [Event.vtable_init 1 (.any_heap_allocated_storage bytes17 std_allocator),
       Event.move_construct (.any_heap_allocated_storage bytes17 std_allocator) 1 0] ∧
    moved_destroyed_world.storage_ 1 = moved_world.storage_ 1 :=
  ⟨(C4_move_construct heap_world moved_world moved_world moved_destroyed_world 1 0 false
      (.any_heap_allocated_storage bytes17 std_allocator) [] rfl rfl rfl
      (List.not_mem_nil _) rfl).1,
   (C4_move_construct heap_world moved_world moved_world moved_destroyed_world 1 0 false
      (.any_heap_allocated_storage bytes17 std_allocator) [] rfl rfl rfl
      (List.not_mem_nil _) rfl).2.2.2.2.2.2.2.2⟩

/-- C5 at a heap-backed handle that is moved from once, and at a construction whose
allocation fails. -/
theorem C5_destroy_exactly_once_witness :
    destroy_calls 0 lifecycle_world.log = 1 ∧ destroy_calls 0 failed_world.log = 0 :=
  ⟨(C5_destroy_exactly_once lp64 cfg16 (World.init false) lifecycle_world 0
      (.value (.other bytes17) good_args) [.move 1 0 false] (by decide) rfl).1,
   (C5_destroy_exactly_once lp64 cfg16 (World.init true) failed_world 0
      (.value (.other bytes17) good_args) [] (List.not_mem_nil _) rfl).1⟩

/-- C6 at `bytes16` in `cfg16` on LP64, with a supplied allocator. -/
theorem C6_inline_never_allocates_witness :
    construct lp64 cfg16 (World.init false) 0
        (.alloc_value ⟨arena_allocator, 7⟩ bytes16 good_args) =
      construct lp64 cfg16 (World.init false) 0 (.in_place bytes16 (.plain good_args)) :=
  (C6_inline_never_allocates lp64 cfg16 16 16 1 movable
    (.alloc_value ⟨arena_allocator, 7⟩ bytes16 good_args) (World.init false) 0 rfl
    (by decide)).2.2 (by decide) (by decide)

/-- No handle is left in `all_destroyed_world`. -/
theorem all_destroyed_world_empty : ∀ a, all_destroyed_world.vtable_ a = none := by
  intro a
  have h : all_destroyed_world.vtable_ =
      set (set (set (set (set (set (fun _ => none)
        0 (some (.any_heap_allocated_storage bytes17 std_allocator)))
        1 (some (.any_heap_allocated_storage bytes17 std_allocator)))
        2 (some (.any_heap_allocated_storage bytes17 std_allocator)))
        0 none) 2 none) 1 none := rfl
  rw [h]
  simp only [set]
  split_ifs <;> rfl

/-- C7 at `bytes17` in `cfg16` on LP64: constructed, moved twice, all three handles
destroyed. -/
theorem C7_one_allocation_one_release_witness :
    heap_world.allocations = 1 ∧ heap_world.deallocations = 0 ∧
    all_destroyed_world.allocations = 1 ∧ all_destroyed_world.deallocations = 1 :=
  ⟨(C7_one_allocation_one_release lp64 cfg16 false 0 (.value (.other bytes17) good_args)
      bytes17 heap_world rfl (by decide) rfl).1,
   (C7_one_allocation_one_release lp64 cfg16 false 0 (.value (.other bytes17) good_args)
      bytes17 heap_world rfl (by decide) rfl).2.1,
   ((C7_one_allocation_one_release lp64 cfg16 false 0 (.value (.other bytes17) good_args)
      bytes17 heap_world rfl (by decide) rfl).2.2.2.2
        [.move 1 0 false, .move 2 1 false, .destroy 0, .destroy 2, .destroy 1]
        all_destroyed_world rfl).1,
   ((C7_one_allocation_one_release lp64 cfg16 false 0 (.value (.other bytes17) good_args)
      bytes17 heap_world rfl (by decide) rfl).2.2.2.2
        [.move 1 0 false, .move 2 1 false, .destroy 0, .destroy 2, .destroy 1]
        all_destroyed_world rfl).2.2 all_destroyed_world_empty⟩

/-- C8 (as amended) at `bytes16` and `bytes17` in `cfg16` on LP64. -/
theorem C8_boundary_padded_witness :
    can_be_stored_inplace_v lp64 cfg16 bytes16 = true ∧
    (can_be_stored_inplace_v lp64 cfg16 bytes17 = false ↔ lp64.sizeof_ptr ≤ cfg16.InlineSize) :=
  ⟨(C8_boundary_padded lp64 cfg16 bytes16 bytes17 rfl rfl rfl rfl).1,
   (C8_boundary_padded lp64 cfg16 bytes16 bytes17 rfl rfl rfl rfl).2.2.1⟩

/-- C9 at a heap-backed handle constructed at address 0 and moved to address 1. -/
theorem C9_handle_consistency_witness :
    consistent heap_world ∧ consistent moved_world :=
  ⟨(C9_handle_consistency lp64 cfg16 (World.init false) heap_world moved_world 0
      (.value (.other bytes17) good_args) [.move 1 0 false] (consistent_init false) rfl rfl).1,
   (C9_handle_consistency lp64 cfg16 (World.init false) heap_world moved_world 0
      (.value (.other bytes17) good_args) [.move 1 0 false] (consistent_init false) rfl rfl).2.1⟩

/-- C10 at `bytes17` in `cfg16` on LP64. -/
theorem C10_dispatch_total_witness :
    can_be_type_erased_v cfg16 bytes17 = true ∧
    (candidates lp64 cfg16 (.in_place bytes17 (.plain good_args))).length = 1 ∧
    resolve lp64 cfg16 3 (.value (.other bytes17) good_args) = .out_of_fuel :=
  ⟨by decide,
   ((C10_dispatch_total lp64 cfg16 bytes17 (by decide)).2.1 rfl (.plain good_args)).2,
   (C10_dispatch_total lp64 cfg16 bytes17 (by decide)).2.2.2.2.2.2.2.2 (by decide) rfl
     good_args rfl⟩

end unifex
